import Mathlib

/-!
# Verification of the Todo-List task application core

Shallow embedding of the repository's Overdue rules engine and REST boundary:

* `src/frontend/src/utils/dateUtils.ts` — `normalizeToMelbourneIso` and helpers;
* `src/frontend/src/services/taskService.ts` — `shouldMarkTaskAsOverdue`,
  `shouldResetOverdueStatus`, `normalizeOverdueTasks`;
* `src/frontend/src/components/kanban/KanbanBoard.tsx` — the drag-and-drop
  transition guard in `handleDragEnd`;
* `src/backend/src/controllers/todo.controller.ts` and
  `src/backend/src/services/todo.service.ts` — the create/update boundary.

External collaborators (JS `Date` parsing, the `Intl` timezone-offset query,
the HTTP transport) are modelled as explicit function parameters; each use
site records the contract assumed of them.
-/

/-- The five task statuses (`TaskStatus` in `src/frontend/src/types/index.ts`
and the `ENUM` column of the `tasks` table). -/
inductive TaskStatus where
  | pending
  | inProgress
  | completed
  | archived
  | overdue
deriving DecidableEq, Repr

/-- Model of `isActiveStatus` from `taskService.ts` / `KanbanBoard.tsx`:
status is `Pending` or `In Progress`. -/
def isActiveStatus (s : TaskStatus) : Bool :=
  s = TaskStatus.pending || s = TaskStatus.inProgress

/-- Model of `isClosedStatus` from `KanbanBoard.tsx`: status is `Completed` or `Archived`. -/
def isClosedStatus (s : TaskStatus) : Bool :=
  s = TaskStatus.completed || s = TaskStatus.archived

/-! ## Date utilities (`src/frontend/src/utils/dateUtils.ts`)

Strings are handled at the character-list level.  JavaScript's `String.trim`
is modelled by dropping whitespace characters from both ends. -/

/-- Whitespace as trimmed by JavaScript `String.prototype.trim` (the ASCII
part, which is all the repository's date strings can contain). -/
def isJsWs (c : Char) : Bool :=
  c = ' ' || c = '\t' || c = '\n' || c = '\r' || c = '\x0b' || c = '\x0c'

/-- Left trim on character lists. -/
def ltrim (l : List Char) : List Char := l.dropWhile isJsWs

/-- Right trim on character lists. -/
def rtrim (l : List Char) : List Char := (l.reverse.dropWhile isJsWs).reverse

/-- Model of JavaScript `value.trim()`. -/
def jsTrim (s : String) : String := String.mk (rtrim (ltrim s.data))

/-- The last character, in reverse order, is `z` or `Z`. -/
def endsWithZ : List Char → Bool
  | c :: _ => c = 'z' || c = 'Z'
  | [] => false

/-- The reversed character list starts with `MM:HH±` — i.e. the string ends
in a `±HH:MM` offset. -/
def offsetPattern : List Char → Bool
  | m2 :: m1 :: c2 :: h2 :: h1 :: sgn :: _ =>
      (c2 = ':') && (sgn = '+' || sgn = '-') &&
        h1.isDigit && h2.isDigit && m1.isDigit && m2.isDigit
  | _ => false

/-- Model of `hasExplicitTimezone` from `dateUtils.ts`: the regex
`/([zZ]|[+-]\d{2}:\d{2})$/` — the string ends in `z`/`Z` or in an explicit
`±HH:MM` offset. -/
def hasExplicitTimezone (s : String) : Bool :=
  endsWithZ s.data.reverse || offsetPattern s.data.reverse

/-- Model of `normaliseDateInput` from `dateUtils.ts`: JavaScript
`value.replace(' ', 'T')` replaces only the first space. -/
def replaceFirstSpace : List Char → List Char
  | [] => []
  | c :: rest => if c = ' ' then 'T' :: rest else c :: replaceFirstSpace rest

/-- The captured groups of the `dateUtils.ts` regex
`^(\d{4})-(\d{2})-(\d{2})T(\d{2})(?::(\d{2})(?::(\d{2}))?)?$`, kept as the
matched characters.  Minute and second default to `00` exactly as the
destructuring `minute = '00', second = '00'` does. -/
structure DateParts where
  y1 : Char
  y2 : Char
  y3 : Char
  y4 : Char
  mo1 : Char
  mo2 : Char
  d1 : Char
  d2 : Char
  h1 : Char
  h2 : Char
  mi1 : Char
  mi2 : Char
  s1 : Char
  s2 : Char
deriving DecidableEq, Repr

/-- Matcher for the anchored date-time regex of `normalizeToMelbourneIso`. -/
def matchDateTime (cs : List Char) : Option DateParts :=
  match cs with
  | y1 :: y2 :: y3 :: y4 :: '-' :: mo1 :: mo2 :: '-' :: d1 :: d2 :: 'T' :: h1 :: h2 :: rest =>
    if y1.isDigit && y2.isDigit && y3.isDigit && y4.isDigit &&
        mo1.isDigit && mo2.isDigit && d1.isDigit && d2.isDigit &&
        h1.isDigit && h2.isDigit then
      match rest with
      | [] =>
          some ⟨y1, y2, y3, y4, mo1, mo2, d1, d2, h1, h2, '0', '0', '0', '0'⟩
      | ':' :: mi1 :: mi2 :: rest2 =>
        if mi1.isDigit && mi2.isDigit then
          match rest2 with
          | [] =>
              some ⟨y1, y2, y3, y4, mo1, mo2, d1, d2, h1, h2, mi1, mi2, '0', '0'⟩
          | ':' :: s1 :: s2 :: [] =>
            if s1.isDigit && s2.isDigit then
              some ⟨y1, y2, y3, y4, mo1, mo2, d1, d2, h1, h2, mi1, mi2, s1, s2⟩
            else none
          | _ => none
        else none
      | _ => none
    else none
  | _ => none

/-- Numeric value of a decimal digit character. -/
def digitVal (c : Char) : Nat := c.toNat - '0'.toNat

/-- Value of `Number(...)` applied to a run of captured digit characters. -/
def digitsToNat (cs : List Char) : Nat :=
  cs.foldl (fun acc c => acc * 10 + digitVal c) 0

/-- Model of `padNumber` from `dateUtils.ts`: decimal print padded on the left with
`0` to width two. -/
def padNumber (n : Nat) : String :=
  let s := toString n
  if s.length < 2 then "0" ++ s else s

/-- Model of `buildOffsetSuffix` from `dateUtils.ts`. -/
def buildOffsetSuffix (offsetMinutes : Int) : String :=
  let sign := if 0 ≤ offsetMinutes then "+" else "-"
  let absolute := offsetMinutes.natAbs
  sign ++ padNumber (absolute / 60) ++ ":" ++ padNumber (absolute % 60)

/-- The timezone-offset oracle: models
`getTimezoneOffsetMinutes(Date.UTC(year, month - 1, day, hour, minute, second))`
from `dateUtils.ts`, an `Intl.DateTimeFormat`-based query of the
`Australia/Melbourne` offset.  It is an external collaborator, so it is a
parameter taking the six captured numbers. -/
abbrev OffsetFn := Nat → Nat → Nat → Nat → Nat → Nat → Int

/-- Model of `normalizeToMelbourneIso` from `dateUtils.ts`, parametrised by the
timezone-offset oracle.  Faithful to the source:
empty/whitespace-only input yields `undefined`; input already carrying an
explicit timezone is returned trimmed; offset-less input matching the
date-time shape is rebuilt with an explicit offset suffix; anything else is
returned trimmed. -/
def normalizeToMelbourneIso (off : OffsetFn) (dateString : Option String) : Option String :=
  match dateString with
  | none => none
  | some s =>
    if s = "" then none
    else
      let trimmed := jsTrim s
      if trimmed = "" then none
      else if hasExplicitTimezone trimmed then some trimmed
      else
        match matchDateTime (replaceFirstSpace trimmed.data) with
        | none => some trimmed
        | some p =>
          let offsetMinutes :=
            off (digitsToNat [p.y1, p.y2, p.y3, p.y4]) (digitsToNat [p.mo1, p.mo2])
              (digitsToNat [p.d1, p.d2]) (digitsToNat [p.h1, p.h2])
              (digitsToNat [p.mi1, p.mi2]) (digitsToNat [p.s1, p.s2])
          some (String.mk [p.y1, p.y2, p.y3, p.y4, '-', p.mo1, p.mo2, '-', p.d1, p.d2,
              'T', p.h1, p.h2, ':', p.mi1, p.mi2, ':', p.s1, p.s2]
            ++ buildOffsetSuffix offsetMinutes)

example : normalizeToMelbourneIso (fun _ _ _ _ _ _ => 600) (some "2025-01-01 10:30")
    = some "2025-01-01T10:30:00+10:00" := by decide

example : normalizeToMelbourneIso (fun _ _ _ _ _ _ => 600) (some " 2025-01-01T10:30:45Z ")
    = some "2025-01-01T10:30:45Z" := by decide

example : normalizeToMelbourneIso (fun _ _ _ _ _ _ => 600) (some "   ") = none := by decide

example : normalizeToMelbourneIso (fun _ _ _ _ _ _ => 600) (some "not a date")
    = some "not a date" := by decide

/-! ## Frontend task model and Status Policy (`src/frontend/src/services/taskService.ts`) -/

/-- The `Task` interface of `src/frontend/src/types/index.ts`.  `id` is
optional there, and the optional timestamp strings are carried verbatim. -/
structure FTask where
  id : Option Nat
  title : String
  description : Option String
  status : TaskStatus
  taskcode : String
  due_date : Option String
  created_at : Option String
  updated_at : Option String
deriving DecidableEq, Repr

/-- JavaScript truthiness of `task.id` (`!task.id` is true for `undefined`
and for `0`), returning the usable id. -/
def jsId (o : Option Nat) : Option Nat :=
  match o with
  | none => none
  | some n => if n = 0 then none else some n

/-- JavaScript truthiness of `task.id` as a Boolean. -/
def jsTruthyId (o : Option Nat) : Bool := (jsId o).isSome

/-- JavaScript truthiness of an optional string (`undefined` and `""` are falsy). -/
def jsTruthyStr (o : Option String) : Bool :=
  match o with
  | none => false
  | some s => s ≠ ""

/-- The JS `Date` parser, `new Date(str).getTime()`: an external collaborator
returning the epoch instant, or `none` for `NaN`. -/
abbrev ParseFn := String → Option Int

/-- The instant a due-date string denotes after timezone normalization:
`new Date(normalizeToMelbourneIso(due)).getTime()`. -/
def dueInstant (parse : ParseFn) (off : OffsetFn) (due : Option String) : Option Int :=
  match normalizeToMelbourneIso off due with
  | none => none
  | some nd => parse nd

/-- Model of `shouldMarkTaskAsOverdue` from `taskService.ts`, with its early returns
in source order: missing/zero id, falsy due date, non-active status,
failed normalization, `NaN` parse, then the strict comparison with `now`. -/
def shouldMarkTaskAsOverdue (parse : ParseFn) (off : OffsetFn) (task : FTask) (now : Int) : Bool :=
  if jsTruthyId task.id = false then false
  else if jsTruthyStr task.due_date = false then false
  else if isActiveStatus task.status = false then false
  else
    match normalizeToMelbourneIso off task.due_date with
    | none => false
    | some nd =>
      match parse nd with
      | none => false
      | some dueTime => decide (dueTime < now)

/-- Model of `shouldResetOverdueStatus` from `taskService.ts`, early returns in source
order: missing/zero id, status not `Overdue`, falsy due date, failed
normalization, `NaN` parse, then `dueTime >= now`. -/
def shouldResetOverdueStatus (parse : ParseFn) (off : OffsetFn) (task : FTask) (now : Int) : Bool :=
  if jsTruthyId task.id = false then false
  else if task.status ≠ TaskStatus.overdue then false
  else if jsTruthyStr task.due_date = false then false
  else
    match normalizeToMelbourneIso off task.due_date with
    | none => false
    | some nd =>
      match parse nd with
      | none => false
      | some dueTime => decide (now ≤ dueTime)

/-! ## The Reconciliation Pass (`normalizeOverdueTasks` in `taskService.ts`)

The HTTP `api.put('/tasks/:id', { status })` call is an external
collaborator: it is a parameter `put` taking the task (whose `id` names the
row) and the desired status, and returning the server's task on success or
`none` when the call threw (the source catches the error and keeps `null`). -/

abbrev PutFn := FTask → TaskStatus → Option FTask

/-- The `overdueCandidates` filter of `normalizeOverdueTasks`. -/
def overdueCandidates (parse : ParseFn) (off : OffsetFn) (now : Int)
    (tasks : List FTask) : List FTask :=
  tasks.filter (fun t => shouldMarkTaskAsOverdue parse off t now)

/-- The `resetCandidates` filter of `normalizeOverdueTasks`. -/
def resetCandidates (parse : ParseFn) (off : OffsetFn) (now : Int)
    (tasks : List FTask) : List FTask :=
  tasks.filter (fun t => shouldResetOverdueStatus parse off t now)

/-- The list of status-only updates `normalizeOverdueTasks` issues: each
overdue candidate paired with target `Overdue`, then each reset candidate
paired with target `Pending`.  When both partitions are empty the source
returns early and this list is empty. -/
def desiredUpdates (parse : ParseFn) (off : OffsetFn) (now : Int)
    (tasks : List FTask) : List (FTask × TaskStatus) :=
  (overdueCandidates parse off now tasks).map (fun t => (t, TaskStatus.overdue)) ++
    (resetCandidates parse off now tasks).map (fun t => (t, TaskStatus.pending))

/-- The `updatedTaskMap` contents: for every issued update that succeeded and
whose response carries a numeric `id`, the pair `(response.id, response)`,
in issue order. -/
def updatedPairs (put : PutFn) (parse : ParseFn) (off : OffsetFn) (now : Int)
    (tasks : List FTask) : List (Nat × FTask) :=
  (desiredUpdates parse off now tasks).filterMap fun ts =>
    match put ts.1 ts.2 with
    | none => none
    | some r =>
      match r.id with
      | none => none
      | some i => some (i, r)

/-- JS `Map.get` after sequential `Map.set` calls: the last set wins. -/
def mapGet (pairs : List (Nat × FTask)) (k : Nat) : Option FTask :=
  pairs.foldl (fun acc p => if p.1 = k then some p.2 else acc) none

/-- The per-task local fallback of the result construction: re-apply the
policy and patch the status locally. -/
def localFallback (parse : ParseFn) (off : OffsetFn) (now : Int) (t : FTask) : FTask :=
  if shouldMarkTaskAsOverdue parse off t now then { t with status := TaskStatus.overdue }
  else if shouldResetOverdueStatus parse off t now then { t with status := TaskStatus.pending }
  else t

/-- The body of the final `tasks.map` of `normalizeOverdueTasks`: substitute
the server-returned task on a map hit (`task.id && updatedTaskMap.has(task.id)`),
otherwise fall back to the local policy re-application. -/
def perTaskLookup (pairs : List (Nat × FTask)) (parse : ParseFn) (off : OffsetFn) (now : Int)
    (t : FTask) : FTask :=
  match jsId t.id with
  | some i =>
    match mapGet pairs i with
    | some r => r
    | none => localFallback parse off now t
  | none => localFallback parse off now t

/-- Model of `normalizeOverdueTasks` from `taskService.ts`: partition, early return
when nothing is flagged, issue the updates, then rebuild the list per task —
server task on a map hit, local fallback otherwise. -/
def normalizeOverdueTasks (put : PutFn) (parse : ParseFn) (off : OffsetFn) (now : Int)
    (tasks : List FTask) : List FTask :=
  if overdueCandidates parse off now tasks = [] ∧ resetCandidates parse off now tasks = [] then
    tasks
  else
    tasks.map (perTaskLookup (updatedPairs put parse off now tasks) parse off now)

/-- The contract the backend gives a status-only `PUT /tasks/:id` response
(`todo.service.ts` `updateTask`): the returned row keeps the task's `id` and
`due_date` and carries the requested status. -/
def PutContract (put : PutFn) : Prop :=
  ∀ t s r, put t s = some r → r.id = t.id ∧ r.status = s ∧ r.due_date = t.due_date

/-! ## Transition Guard (`handleDragEnd` in `KanbanBoard.tsx`)

The guard portion of `handleDragEnd` is a pure decision over the dragged
task's current status, the destination column's status, and whether
`hasDueDatePassed(task)` holds.  The source is a chain of early returns;
the embedding flattens it into an if-chain in the same order. -/

/-- Outcome of the drag-and-drop transition guard.  `noop` is the silent
early return on an unchanged status (no toast, no write); `reject` carries
the toast message; `accept` carries the target status of the status-only
`updateTask(task.id, { status })` call that follows. -/
inductive GuardDecision where
  | noop
  | reject (msg : String)
  | accept (target : TaskStatus)
deriving DecidableEq, Repr

/-- Toast shown when a closed task is dragged to Overdue. -/
def msgClosedToOverdue : String :=
  "Completed or archived tasks cannot be moved to Overdue. Please reopen the task first."

/-- Toast shown when an active task with an unexpired due date is dragged to Overdue. -/
def msgNotYetOverdue : String :=
  "This task is not overdue yet. Update the due date or wait until it passes before moving it to Overdue."

/-- Toast shown when a closed task with an expired due date is dragged to an active column. -/
def msgReopenClosed : String :=
  "Update the task due date before reopening it to Pending or In Progress."

/-- Toast shown when an Overdue task with an expired due date is dragged to an active column. -/
def msgReturnFromOverdue : String :=
  "Update the task due date before returning it to Pending or In Progress."

/-- The guard logic of `handleDragEnd` (`KanbanBoard.tsx`, lines 109-134):
given the task's current status, the requested status and
`hasDueDatePassed(task)`, in source order. -/
def handleDragEndGuard (current target : TaskStatus) (duePassed : Bool) : GuardDecision :=
  if current = target then GuardDecision.noop
  else if target = TaskStatus.overdue && isClosedStatus current then
    GuardDecision.reject msgClosedToOverdue
  else if target = TaskStatus.overdue && isActiveStatus current && !duePassed then
    GuardDecision.reject msgNotYetOverdue
  else if isClosedStatus current && isActiveStatus target && duePassed then
    GuardDecision.reject msgReopenClosed
  else if current = TaskStatus.overdue && isActiveStatus target && duePassed then
    GuardDecision.reject msgReturnFromOverdue
  else GuardDecision.accept target

/-- The spec's ordered decision table (§4.3), written from the spec's rows,
first match wins: no-op on equal statuses; reject Overdue from a closed
status; reject Overdue from an active status whose due date has not passed;
reject reopening a closed task with a passed due date; reject returning an
Overdue task with a passed due date to active; otherwise accept with a
status-only update. -/
def specGuardTable (current target : TaskStatus) (duePassed : Bool) : GuardDecision :=
  if target = current then GuardDecision.noop
  else if target = TaskStatus.overdue && isClosedStatus current then
    GuardDecision.reject msgClosedToOverdue
  else if target = TaskStatus.overdue && isActiveStatus current && !duePassed then
    GuardDecision.reject msgNotYetOverdue
  else if isClosedStatus current && isActiveStatus target && duePassed then
    GuardDecision.reject msgReopenClosed
  else if current = TaskStatus.overdue && isActiveStatus target && duePassed then
    GuardDecision.reject msgReturnFromOverdue
  else GuardDecision.accept target

/-! ## Backend boundary (`todo.controller.ts` + `todo.service.ts`)

The store is the list of rows of the `tasks` table.  `NOW()` and the
`CURRENT_TIMESTAMP` column defaults are modelled by an explicit instant
passed to each operation. -/

/-- A row of the `tasks` table (`backend/src/models/todo.model.ts` /
the schema): generated integer id, title, optional description, status,
5-char code, optional due date, and the two timestamps. -/
structure BTask where
  id : Nat
  title : String
  description : Option String
  status : TaskStatus
  taskcode : String
  due_date : Option String
  created_at : Int
  updated_at : Int
deriving DecidableEq, Repr

/-- Model of `taskService.getTaskByCode`: `SELECT * FROM tasks WHERE taskcode = ?`,
first matching row. -/
def getTaskByCode (store : List BTask) (code : String) : Option BTask :=
  store.find? (fun r => r.taskcode = code)

/-- The JSON body of `POST /api/tasks` as read by `createTask`
(`todo.controller.ts`): every field may be absent. -/
structure CreateBody where
  title : Option String
  description : Option String
  status : Option TaskStatus
  taskcode : Option String
  due_date : Option String
deriving DecidableEq, Repr

/-- Outcome of the create controller (database-layer 500s are out of scope). -/
inductive CreateResponse where
  | badRequest (msg : String)
  | created (t : BTask)
deriving DecidableEq, Repr

/-- Default of `status || 'Pending'` — a falsy status defaults to Pending. -/
def defaultStatus (o : Option TaskStatus) : TaskStatus :=
  o.getD TaskStatus.pending

/-- Model of `value || null` — an absent or empty optional string is stored as NULL. -/
def orNull (o : Option String) : Option String :=
  match o with
  | none => none
  | some s => if s = "" then none else some s

/-- Model of `createTask` from `todo.controller.ts` plus `taskService.createTask`:
reject missing title/taskcode, reject a code whose length is not 5, reject a
duplicate code, otherwise insert a row with the generated id `nextId` and
both timestamps set to `now` (the schema's `CURRENT_TIMESTAMP` defaults) and
answer 201 with the re-fetched row. -/
def createTaskController (body : CreateBody) (now : Int) (nextId : Nat)
    (store : List BTask) : CreateResponse × List BTask :=
  if jsTruthyStr body.title = false || jsTruthyStr body.taskcode = false then
    (CreateResponse.badRequest "Title and taskcode are required", store)
  else
    let code := body.taskcode.getD ""
    if code.length ≠ 5 then
      (CreateResponse.badRequest "Taskcode must be exactly 5 characters", store)
    else
      match getTaskByCode store code with
      | some _ => (CreateResponse.badRequest "Taskcode already exists", store)
      | none =>
        let t : BTask :=
          { id := nextId
            title := body.title.getD ""
            description := orNull body.description
            status := defaultStatus body.status
            taskcode := code
            due_date := orNull body.due_date
            created_at := now
            updated_at := now }
        (CreateResponse.created t, store ++ [t])

/-- The JSON body of `PUT /api/tasks/:id`: any subset of fields
(`Partial<Task>`); `none` is an absent field. -/
structure UpdateBody where
  title : Option String
  description : Option String
  status : Option TaskStatus
  taskcode : Option String
  due_date : Option String
deriving DecidableEq, Repr

/-- No recognised field is present in the body. -/
def UpdateBody.isEmpty (b : UpdateBody) : Bool :=
  b.title.isNone && b.description.isNone && b.status.isNone &&
    b.taskcode.isNone && b.due_date.isNone

/-- The dynamic `UPDATE ... SET` of `taskService.updateTask` applied to one
row: overwrite each provided field and stamp `updated_at = NOW()`. -/
def applyUpdate (b : UpdateBody) (now : Int) (r : BTask) : BTask :=
  { r with
    title := b.title.getD r.title
    description := match b.description with | some d => some d | none => r.description
    status := b.status.getD r.status
    taskcode := b.taskcode.getD r.taskcode
    due_date := match b.due_date with | some d => some d | none => r.due_date
    updated_at := now }

/-- Model of `taskService.updateTask`: with no provided field, just re-fetch the row;
otherwise run the dynamic update on the matching row and re-fetch. -/
def updateTaskService (id : Nat) (b : UpdateBody) (now : Int)
    (store : List BTask) : Option BTask × List BTask :=
  if b.isEmpty then (store.find? (fun r => r.id = id), store)
  else
    let store' := store.map fun r => if r.id = id then applyUpdate b now r else r
    (store'.find? (fun r => r.id = id), store')

/-- Outcome of the update controller. -/
inductive UpdateResponse where
  | badRequest (msg : String)
  | notFound
  | ok (t : BTask)
deriving DecidableEq, Repr

/-- Tail of the update controller: delegate to the service, answering 404
when no row matches and 200 with the refreshed row otherwise. -/
def updateRespond (id : Nat) (b : UpdateBody) (now : Int)
    (store : List BTask) : UpdateResponse × List BTask :=
  match updateTaskService id b now store with
  | (none, store') => (UpdateResponse.notFound, store')
  | (some t, store') => (UpdateResponse.ok t, store')

/-- Model of `updateTask` from `todo.controller.ts` for a well-formed numeric id:
if a truthy `taskcode` is supplied, reject a length other than 5 and reject
a code owned by a different row; then delegate to the service. -/
def updateTaskController (id : Nat) (b : UpdateBody) (now : Int)
    (store : List BTask) : UpdateResponse × List BTask :=
  if jsTruthyStr b.taskcode then
    let code := b.taskcode.getD ""
    if code.length ≠ 5 then
      (UpdateResponse.badRequest "Taskcode must be exactly 5 characters", store)
    else
      match getTaskByCode store code with
      | some ex =>
        if ex.id ≠ id then (UpdateResponse.badRequest "Taskcode already exists", store)
        else updateRespond id b now store
      | none => updateRespond id b now store
  else updateRespond id b now store

/-! ## Spec-side formulations of the Status Policy predicates

These two definitions follow the words of the specification (§4.1 /
claims C2-C3); the theorems below compare them with the source-derived
`shouldMarkTaskAsOverdue` / `shouldResetOverdueStatus`. -/

/-- The due date is present, survives normalization, parses, and is strictly
before `now`. -/
def dueBefore (parse : ParseFn) (off : OffsetFn) (due : Option String) (now : Int) : Bool :=
  match dueInstant parse off due with
  | none => false
  | some dt => decide (dt < now)

/-- The due date is present, survives normalization, parses, and is ≥ `now`. -/
def dueNotBefore (parse : ParseFn) (off : OffsetFn) (due : Option String) (now : Int) : Bool :=
  match dueInstant parse off due with
  | none => false
  | some dt => decide (now ≤ dt)

/-- Predicate `shouldBecomeOverdue` exactly as claim C2 words it: active status and a
normalized due instant strictly before `now`. -/
def specShouldBecomeOverdue (parse : ParseFn) (off : OffsetFn) (task : FTask) (now : Int) : Bool :=
  isActiveStatus task.status && dueBefore parse off task.due_date now

/-- Predicate `shouldLeaveOverdue` exactly as claim C3 words it: status Overdue and a
normalized due instant ≥ `now`. -/
def specShouldLeaveOverdue (parse : ParseFn) (off : OffsetFn) (task : FTask) (now : Int) : Bool :=
  decide (task.status = TaskStatus.overdue) && dueNotBefore parse off task.due_date now

lemma normalize_none (off : OffsetFn) : normalizeToMelbourneIso off none = none := rfl

lemma normalize_some_empty (off : OffsetFn) : normalizeToMelbourneIso off (some "") = none := rfl

lemma shouldMark_eq_spec (parse : ParseFn) (off : OffsetFn) (t : FTask) (now : Int) :
    shouldMarkTaskAsOverdue parse off t now =
      (jsTruthyId t.id && specShouldBecomeOverdue parse off t now) := by
  unfold shouldMarkTaskAsOverdue specShouldBecomeOverdue dueBefore dueInstant
  cases hid : jsTruthyId t.id with
  | false => simp
  | true =>
    simp only [Bool.true_and]
    cases hdue : t.due_date with
    | none => simp [jsTruthyStr, normalize_none]
    | some s =>
      by_cases hs : s = ""
      · subst hs
        simp [jsTruthyStr, normalize_some_empty]
      · simp only [jsTruthyStr, ne_eq, hs, not_false_eq_true, decide_eq_true_eq,
          decide_not, Bool.not_false]
        cases hact : isActiveStatus t.status with
        | false => simp
        | true =>
          simp only [Bool.true_and, Bool.not_true, Bool.false_eq_true, if_false]
          cases hnorm : normalizeToMelbourneIso off (some s) with
          | none => simp
          | some nd => cases hp : parse nd <;> simp

lemma shouldReset_eq_spec (parse : ParseFn) (off : OffsetFn) (t : FTask) (now : Int) :
    shouldResetOverdueStatus parse off t now =
      (jsTruthyId t.id && specShouldLeaveOverdue parse off t now) := by
  unfold shouldResetOverdueStatus specShouldLeaveOverdue dueNotBefore dueInstant
  cases hid : jsTruthyId t.id with
  | false => simp
  | true =>
    simp only [Bool.true_and]
    by_cases hst : t.status = TaskStatus.overdue
    · rw [if_neg (show ¬t.status ≠ TaskStatus.overdue by simp [hst])]
      have hdec : decide (t.status = TaskStatus.overdue) = true := by simp [hst]
      rw [hdec, Bool.true_and]
      cases hdue : t.due_date with
      | none => simp [jsTruthyStr, normalize_none]
      | some s =>
        by_cases hs : s = ""
        · subst hs
          simp [jsTruthyStr, normalize_some_empty]
        · simp only [jsTruthyStr, ne_eq, hs, not_false_eq_true, decide_eq_true_eq,
            decide_not, Bool.not_false]
          cases hnorm : normalizeToMelbourneIso off (some s) with
          | none => simp
          | some nd => cases hp : parse nd <;> simp
    · simp [hst]

/-- An active status is never Overdue, so the two policy predicates are
mutually exclusive. -/
lemma mark_reset_exclusive (parse : ParseFn) (off : OffsetFn) (t : FTask) (now : Int) :
    shouldMarkTaskAsOverdue parse off t now = true →
      shouldResetOverdueStatus parse off t now = false := by
  rw [shouldMark_eq_spec, shouldReset_eq_spec]
  unfold specShouldBecomeOverdue specShouldLeaveOverdue
  intro h
  simp only [Bool.and_eq_true] at h
  obtain ⟨-, hact, -⟩ := h
  cases hst : t.status <;> simp_all [isActiveStatus]

/-- Components of a true `shouldMarkTaskAsOverdue`. -/
lemma shouldMark_extract {parse : ParseFn} {off : OffsetFn} {t : FTask} {now : Int}
    (h : shouldMarkTaskAsOverdue parse off t now = true) :
    jsTruthyId t.id = true ∧ isActiveStatus t.status = true ∧
      ∃ dt, dueInstant parse off t.due_date = some dt ∧ dt < now := by
  rw [shouldMark_eq_spec] at h
  unfold specShouldBecomeOverdue at h
  simp only [Bool.and_eq_true] at h
  obtain ⟨hid, hact, hdue⟩ := h
  refine ⟨hid, hact, ?_⟩
  unfold dueBefore at hdue
  cases hinst : dueInstant parse off t.due_date with
  | none => rw [hinst] at hdue; cases hdue
  | some dt =>
    rw [hinst] at hdue
    exact ⟨dt, rfl, of_decide_eq_true hdue⟩

/-- Components of a true `shouldResetOverdueStatus`. -/
lemma shouldReset_extract {parse : ParseFn} {off : OffsetFn} {t : FTask} {now : Int}
    (h : shouldResetOverdueStatus parse off t now = true) :
    jsTruthyId t.id = true ∧ t.status = TaskStatus.overdue ∧
      ∃ dt, dueInstant parse off t.due_date = some dt ∧ now ≤ dt := by
  rw [shouldReset_eq_spec] at h
  unfold specShouldLeaveOverdue at h
  simp only [Bool.and_eq_true] at h
  obtain ⟨hid, hst, hdue⟩ := h
  refine ⟨hid, of_decide_eq_true hst, ?_⟩
  unfold dueNotBefore at hdue
  cases hinst : dueInstant parse off t.due_date with
  | none => rw [hinst] at hdue; cases hdue
  | some dt =>
    rw [hinst] at hdue
    exact ⟨dt, rfl, of_decide_eq_true hdue⟩

lemma shouldMark_false_of_not_active {parse : ParseFn} {off : OffsetFn} {t : FTask} {now : Int}
    (h : isActiveStatus t.status = false) :
    shouldMarkTaskAsOverdue parse off t now = false := by
  rw [shouldMark_eq_spec]
  unfold specShouldBecomeOverdue
  simp [h]

lemma shouldMark_false_of_due_ge {parse : ParseFn} {off : OffsetFn} {t : FTask} {now dt : Int}
    (hinst : dueInstant parse off t.due_date = some dt) (hge : now ≤ dt) :
    shouldMarkTaskAsOverdue parse off t now = false := by
  rw [shouldMark_eq_spec]
  unfold specShouldBecomeOverdue dueBefore
  rw [hinst]
  have hd : decide (dt < now) = false := decide_eq_false (by omega)
  simp [hd]

lemma shouldReset_false_of_status {parse : ParseFn} {off : OffsetFn} {t : FTask} {now : Int}
    (h : t.status ≠ TaskStatus.overdue) :
    shouldResetOverdueStatus parse off t now = false := by
  rw [shouldReset_eq_spec]
  unfold specShouldLeaveOverdue
  simp [h]

lemma shouldReset_false_of_due_lt {parse : ParseFn} {off : OffsetFn} {t : FTask} {now dt : Int}
    (hinst : dueInstant parse off t.due_date = some dt) (hlt : dt < now) :
    shouldResetOverdueStatus parse off t now = false := by
  rw [shouldReset_eq_spec]
  unfold specShouldLeaveOverdue dueNotBefore
  rw [hinst]
  have hd : decide (now ≤ dt) = false := decide_eq_false (by omega)
  simp [hd]

/-! ## Lemmas about the update map and the issued-update list -/

lemma mapGet_foldl_no_key (k : Nat) (a : Option FTask) :
    ∀ ps : List (Nat × FTask), (∀ p ∈ ps, p.1 ≠ k) →
      ps.foldl (fun acc p => if p.1 = k then some p.2 else acc) a = a := by
  intro ps
  induction ps generalizing a with
  | nil => intro _; rfl
  | cons p rest ih =>
    intro h
    rw [List.foldl_cons, if_neg (h p (List.mem_cons_self p rest))]
    exact ih a fun q hq => h q (List.mem_cons_of_mem p hq)

lemma mapGet_eq_none {ps : List (Nat × FTask)} {k : Nat}
    (h : ∀ p ∈ ps, p.1 ≠ k) : mapGet ps k = none :=
  mapGet_foldl_no_key k none ps h

lemma mapGet_foldl_mem (k : Nat) :
    ∀ (ps : List (Nat × FTask)) (a : Option FTask) (r : FTask),
      ps.foldl (fun acc p => if p.1 = k then some p.2 else acc) a = some r →
        (k, r) ∈ ps ∨ a = some r := by
  intro ps
  induction ps with
  | nil => intro a r h; exact Or.inr h
  | cons p rest ih =>
    intro a r h
    rw [List.foldl_cons] at h
    rcases ih _ r h with hmem | hacc
    · exact Or.inl (List.mem_cons_of_mem p hmem)
    · by_cases hk : p.1 = k
      · rw [if_pos hk] at hacc
        obtain ⟨rfl⟩ := Option.some.inj hacc
        left
        have : p = (k, p.2) := by
          obtain ⟨p1, p2⟩ := p
          simp_all
        rw [← this]
        exact List.mem_cons_self p rest
      · rw [if_neg hk] at hacc
        exact Or.inr hacc

lemma mapGet_mem {ps : List (Nat × FTask)} {k : Nat} {r : FTask}
    (h : mapGet ps k = some r) : (k, r) ∈ ps := by
  rcases mapGet_foldl_mem k ps none r h with hmem | hacc
  · exact hmem
  · cases hacc

lemma mapGet_eq_some (k : Nat) (r : FTask) :
    ∀ (ps : List (Nat × FTask)) (a : Option FTask), (k, r) ∈ ps →
      (∀ r', (k, r') ∈ ps → r' = r) →
        ps.foldl (fun acc p => if p.1 = k then some p.2 else acc) a = some r := by
  intro ps
  induction ps with
  | nil => intro a hmem _; cases hmem
  | cons p rest ih =>
    intro a hmem huniq
    rw [List.foldl_cons]
    by_cases hrest : ∃ r'', (k, r'') ∈ rest
    · obtain ⟨r'', hr''⟩ := hrest
      have hr''r : r'' = r := huniq r'' (List.mem_cons_of_mem p hr'')
      subst hr''r
      exact ih _ hr'' fun r' hr' => huniq r' (List.mem_cons_of_mem p hr')
    · have hp : p = (k, r) := by
        rcases List.mem_cons.mp hmem with hh | ht
        · exact hh.symm
        · exact absurd ⟨r, ht⟩ hrest
      subst hp
      rw [if_pos rfl]
      exact mapGet_foldl_no_key k (some r) rest fun q hq => by
        obtain ⟨q1, q2⟩ := q
        intro hq1
        exact hrest ⟨q2, by rw [← hq1]; exact hq⟩

lemma mapGet_some_of_mem {ps : List (Nat × FTask)} {k : Nat} {r : FTask}
    (hmem : (k, r) ∈ ps) (huniq : ∀ r', (k, r') ∈ ps → r' = r) :
    mapGet ps k = some r :=
  mapGet_eq_some k r ps none hmem huniq

lemma mem_desiredUpdates {parse : ParseFn} {off : OffsetFn} {now : Int}
    {tasks : List FTask} {t : FTask} {s : TaskStatus} :
    (t, s) ∈ desiredUpdates parse off now tasks ↔
      t ∈ tasks ∧
        ((shouldMarkTaskAsOverdue parse off t now = true ∧ s = TaskStatus.overdue) ∨
          (shouldResetOverdueStatus parse off t now = true ∧ s = TaskStatus.pending)) := by
  unfold desiredUpdates overdueCandidates resetCandidates
  simp only [List.mem_append, List.mem_map, List.mem_filter, Prod.mk.injEq]
  constructor
  · rintro (⟨u, ⟨hu, hm⟩, rfl, rfl⟩ | ⟨u, ⟨hu, hm⟩, rfl, rfl⟩)
    · exact ⟨hu, Or.inl ⟨hm, rfl⟩⟩
    · exact ⟨hu, Or.inr ⟨hm, rfl⟩⟩
  · rintro ⟨ht, (⟨hm, rfl⟩ | ⟨hm, rfl⟩)⟩
    · exact Or.inl ⟨t, ⟨ht, hm⟩, rfl, rfl⟩
    · exact Or.inr ⟨t, ⟨ht, hm⟩, rfl, rfl⟩

lemma mem_updatedPairs {put : PutFn} {parse : ParseFn} {off : OffsetFn} {now : Int}
    {tasks : List FTask} {i : Nat} {r : FTask} :
    (i, r) ∈ updatedPairs put parse off now tasks ↔
      ∃ t s, (t, s) ∈ desiredUpdates parse off now tasks ∧
        put t s = some r ∧ r.id = some i := by
  unfold updatedPairs
  rw [List.mem_filterMap]
  constructor
  · rintro ⟨⟨t, s⟩, hmem, hfn⟩
    refine ⟨t, s, hmem, ?_⟩
    cases hput : put t s with
    | none => simp only [hput] at hfn; exact Option.noConfusion hfn
    | some r' =>
      simp only [hput] at hfn
      cases hid : r'.id with
      | none => simp only [hid] at hfn; exact Option.noConfusion hfn
      | some i' =>
        simp only [hid, Option.some.injEq, Prod.mk.injEq] at hfn
        obtain ⟨rfl, rfl⟩ := hfn
        exact ⟨rfl, hid⟩
  · rintro ⟨t, s, hmem, hput, hid⟩
    refine ⟨(t, s), hmem, ?_⟩
    simp only [hput, hid]

/-! ## Characterising the Reconciliation Pass output -/

lemma normalize_of_nil {put : PutFn} {parse : ParseFn} {off : OffsetFn} {now : Int}
    {tasks : List FTask} (h1 : overdueCandidates parse off now tasks = [])
    (h2 : resetCandidates parse off now tasks = []) :
    normalizeOverdueTasks put parse off now tasks = tasks := by
  unfold normalizeOverdueTasks
  rw [if_pos ⟨h1, h2⟩]

/-- Every element of the pass output is either an untouched input element
(when nothing was flagged), a server response stored in the update map, or
the local fallback of an input element. -/
lemma normalize_mem {put : PutFn} {parse : ParseFn} {off : OffsetFn} {now : Int}
    {tasks : List FTask} {u : FTask}
    (h : u ∈ normalizeOverdueTasks put parse off now tasks) :
    (u ∈ tasks ∧ overdueCandidates parse off now tasks = [] ∧
        resetCandidates parse off now tasks = []) ∨
      (∃ i, (i, u) ∈ updatedPairs put parse off now tasks) ∨
      (∃ t, t ∈ tasks ∧ u = localFallback parse off now t) := by
  unfold normalizeOverdueTasks at h
  by_cases hnil : overdueCandidates parse off now tasks = [] ∧
      resetCandidates parse off now tasks = []
  · rw [if_pos hnil] at h
    exact Or.inl ⟨h, hnil⟩
  · rw [if_neg hnil] at h
    obtain ⟨t, ht, hft⟩ := List.mem_map.mp h
    unfold perTaskLookup at hft
    cases hid : jsId t.id with
    | none =>
      simp only [hid] at hft
      exact Or.inr (Or.inr ⟨t, ht, hft.symm⟩)
    | some i =>
      simp only [hid] at hft
      cases hget : mapGet (updatedPairs put parse off now tasks) i with
      | none =>
        simp only [hget] at hft
        exact Or.inr (Or.inr ⟨t, ht, hft.symm⟩)
      | some r =>
        simp only [hget] at hft
        subst hft
        exact Or.inr (Or.inl ⟨i, mapGet_mem hget⟩)

lemma fallback_due_date (parse : ParseFn) (off : OffsetFn) (now : Int) (t : FTask) :
    (localFallback parse off now t).due_date = t.due_date := by
  unfold localFallback
  by_cases h1 : shouldMarkTaskAsOverdue parse off t now = true
  · rw [if_pos h1]
  · rw [if_neg h1]
    by_cases h2 : shouldResetOverdueStatus parse off t now = true
    · rw [if_pos h2]
    · rw [if_neg h2]

lemma fallback_id (parse : ParseFn) (off : OffsetFn) (now : Int) (t : FTask) :
    (localFallback parse off now t).id = t.id := by
  unfold localFallback
  by_cases h1 : shouldMarkTaskAsOverdue parse off t now = true
  · rw [if_pos h1]
  · rw [if_neg h1]
    by_cases h2 : shouldResetOverdueStatus parse off t now = true
    · rw [if_pos h2]
    · rw [if_neg h2]

/-- After one pass, no output task satisfies either transition predicate
(assuming the backend's status-update contract on `put`). -/
lemma output_predicates_false {put : PutFn} {parse : ParseFn} {off : OffsetFn} {now : Int}
    {tasks : List FTask} (hc : PutContract put) :
    ∀ u ∈ normalizeOverdueTasks put parse off now tasks,
      shouldMarkTaskAsOverdue parse off u now = false ∧
        shouldResetOverdueStatus parse off u now = false := by
  intro u hu
  rcases normalize_mem hu with ⟨hmem, h1, h2⟩ | ⟨i, hpair⟩ | ⟨t, ht, hfb⟩
  · constructor
    · have := List.filter_eq_nil_iff.mp h1 u hmem
      simpa using this
    · have := List.filter_eq_nil_iff.mp h2 u hmem
      simpa using this
  · obtain ⟨t, s, hdes, hput, -⟩ := mem_updatedPairs.mp hpair
    obtain ⟨-, hstat, hdue⟩ := hc t s u hput
    rcases (mem_desiredUpdates.mp hdes).2 with ⟨hm, rfl⟩ | ⟨hm, rfl⟩
    · obtain ⟨-, -, dt, hinst, hlt⟩ := shouldMark_extract hm
      constructor
      · exact shouldMark_false_of_not_active (by rw [hstat]; rfl)
      · exact shouldReset_false_of_due_lt (by rw [hdue]; exact hinst) hlt
    · obtain ⟨-, -, dt, hinst, hge⟩ := shouldReset_extract hm
      constructor
      · exact shouldMark_false_of_due_ge (by rw [hdue]; exact hinst) hge
      · exact shouldReset_false_of_status (by rw [hstat]; exact fun h => TaskStatus.noConfusion h)
  · subst hfb
    unfold localFallback
    by_cases hm : shouldMarkTaskAsOverdue parse off t now = true
    · rw [if_pos hm]
      obtain ⟨-, -, dt, hinst, hlt⟩ := shouldMark_extract hm
      constructor
      · exact shouldMark_false_of_not_active rfl
      · exact shouldReset_false_of_due_lt hinst hlt
    · rw [if_neg hm]
      by_cases hr : shouldResetOverdueStatus parse off t now = true
      · rw [if_pos hr]
        obtain ⟨-, -, dt, hinst, hge⟩ := shouldReset_extract hr
        constructor
        · exact shouldMark_false_of_due_ge hinst hge
        · exact shouldReset_false_of_status (fun h => TaskStatus.noConfusion h)
      · rw [if_neg hr]
        exact ⟨Bool.eq_false_iff.mpr hm, Bool.eq_false_iff.mpr hr⟩

/-- After one pass, both candidate partitions are empty (assuming the backend
contract), so a second pass would issue no update. -/
lemma output_candidates_nil {put : PutFn} {parse : ParseFn} {off : OffsetFn} {now : Int}
    {tasks : List FTask} (hc : PutContract put) :
    overdueCandidates parse off now (normalizeOverdueTasks put parse off now tasks) = [] ∧
      resetCandidates parse off now (normalizeOverdueTasks put parse off now tasks) = [] := by
  constructor
  · exact List.filter_eq_nil_iff.mpr fun u hu => by
      rw [(output_predicates_false hc u hu).1]
      exact Bool.false_ne_true
  · exact List.filter_eq_nil_iff.mpr fun u hu => by
      rw [(output_predicates_false hc u hu).2]
      exact Bool.false_ne_true

lemma jsId_eq_some {o : Option Nat} {i : Nat} (h : jsId o = some i) : o = some i := by
  cases o with
  | none => cases h
  | some n =>
    simp only [jsId] at h
    by_cases hn : n = 0
    · rw [if_pos hn] at h; cases h
    · rw [if_neg hn] at h; exact h

lemma jsTruthyId_exists {o : Option Nat} (h : jsTruthyId o = true) :
    ∃ i, jsId o = some i ∧ o = some i := by
  unfold jsTruthyId at h
  cases hj : jsId o with
  | none => rw [hj] at h; cases h
  | some i => exact ⟨i, rfl, jsId_eq_some hj⟩

/-! ## Concrete fixtures used by counterexamples and witnesses -/

/-- Constant Melbourne standard-time offset (+10:00), a valid instance of the
`Intl` offset oracle. -/
def offFix : OffsetFn := fun _ _ _ _ _ _ => 600

/-- A `new Date(...).getTime()` oracle fixed on the two instants the concrete
scenarios use: an epoch-0 past instant and a far-future instant. -/
def parseFix : ParseFn := fun s =>
  if s = "2020-01-01T00:00:00Z" then some 0
  else if s = "2030-01-01T00:00:00Z" then some 1000
  else none

/-- An id-less active task whose due date lies in the past (a legal value of
the frontend `Task` interface, where `id` is optional). -/
def taskNoIdPast : FTask :=
  { id := none, title := "t", description := none, status := TaskStatus.pending,
    taskcode := "AB123", due_date := some "2020-01-01T00:00:00Z",
    created_at := none, updated_at := none }

/-- An id-less Overdue task whose due date lies in the future. -/
def taskNoIdFuture : FTask :=
  { id := none, title := "t", description := none, status := TaskStatus.overdue,
    taskcode := "AB124", due_date := some "2030-01-01T00:00:00Z",
    created_at := none, updated_at := none }

/-- A server `put` that echoes the task with the requested status applied —
exactly what the backend's status-only update returns. -/
def putEcho : PutFn := fun t s => some { t with status := s }

lemma putEcho_contract : PutContract putEcho := by
  intro t s r h
  unfold putEcho at h
  have := Option.some.inj h
  subst this
  exact ⟨rfl, rfl, rfl⟩

/-! ## Claim theorems -/

/-- C1: the Transition Guard of `handleDragEnd` decides exactly per the
spec's ordered decision table: a no-op on an unchanged status, the two
Overdue-target rejections, the two passed-due reopen rejections, and
acceptance with a status-only update otherwise — first matching row wins,
for every combination of current status, target status and due-date flag. -/
theorem c1_transition_guard_matches_table :
    ∀ (current target : TaskStatus) (duePassed : Bool),
      handleDragEndGuard current target duePassed = specGuardTable current target duePassed := by
  intro current target duePassed
  cases current <;> cases target <;> cases duePassed <;> rfl

/-- C2 counterexample: the claim says `shouldMarkTaskAsOverdue` returns true
for every task with active status and a normalized due instant strictly
before `now`, but the source first requires a truthy `task.id`; an id-less
task meeting all of the claim's conditions yields `false`. -/
theorem c2_counterexample :
    specShouldBecomeOverdue parseFix offFix taskNoIdPast 100 = true ∧
      shouldMarkTaskAsOverdue parseFix offFix taskNoIdPast 100 = false := by
  constructor
  · decide
  · decide

/-- C2 (amended): `shouldMarkTaskAsOverdue` returns true exactly when the
task has a truthy id (present and non-zero) AND its status is Pending or
In Progress AND its due date is present, survives timezone normalization,
parses to an instant, and that instant is strictly before `now`; in every
other case it returns false. -/
theorem c2_should_become_overdue (parse : ParseFn) (off : OffsetFn) (t : FTask) (now : Int) :
    shouldMarkTaskAsOverdue parse off t now =
      (jsTruthyId t.id && specShouldBecomeOverdue parse off t now) :=
  shouldMark_eq_spec parse off t now

/-- C3 counterexample: the claim says `shouldResetOverdueStatus` returns
true for every Overdue task whose normalized due instant is ≥ `now`, but the
source first requires a truthy `task.id`; an id-less task meeting all of the
claim's conditions yields `false`. -/
theorem c3_counterexample :
    specShouldLeaveOverdue parseFix offFix taskNoIdFuture 100 = true ∧
      shouldResetOverdueStatus parseFix offFix taskNoIdFuture 100 = false := by
  constructor
  · decide
  · decide

/-- C3 (amended): `shouldResetOverdueStatus` returns true exactly when the
task has a truthy id AND status Overdue AND a due date that is present,
survives normalization, parses, and is ≥ `now`; otherwise false.  Moreover
every task it flags is issued target status Pending by the Reconciliation
Pass. -/
theorem c3_should_leave_overdue :
    (∀ (parse : ParseFn) (off : OffsetFn) (t : FTask) (now : Int),
      shouldResetOverdueStatus parse off t now =
        (jsTruthyId t.id && specShouldLeaveOverdue parse off t now)) ∧
      ∀ (parse : ParseFn) (off : OffsetFn) (now : Int) (tasks : List FTask) (t : FTask),
        t ∈ tasks → shouldResetOverdueStatus parse off t now = true →
          (t, TaskStatus.pending) ∈ desiredUpdates parse off now tasks := by
  constructor
  · exact shouldReset_eq_spec
  · intro parse off now tasks t ht hr
    exact mem_desiredUpdates.mpr ⟨ht, Or.inr ⟨hr, rfl⟩⟩

/-- C3 witness: the second part of `c3_should_leave_overdue` applied to a
concrete singleton list containing an Overdue task with a future due date. -/
theorem c3_should_leave_overdue_witness :
    (⟨{ taskNoIdFuture with id := some 1 }, TaskStatus.pending⟩ : FTask × TaskStatus) ∈
      desiredUpdates parseFix offFix 100 [{ taskNoIdFuture with id := some 1 }] :=
  c3_should_leave_overdue.2 parseFix offFix 100 [{ taskNoIdFuture with id := some 1 }]
    { taskNoIdFuture with id := some 1 } (List.mem_singleton.mpr rfl) (by decide)

/-- C4: the Reconciliation Pass is idempotent.  When both partitions are
empty it returns its input unchanged and issues no update; and on the output
of any run (under the backend's status-update contract) both partitions are
empty again, so an immediate second run issues zero updates and returns the
list unchanged, whatever the transport does on that second run. -/
theorem c4_reconciliation_idempotent (put : PutFn) (parse : ParseFn) (off : OffsetFn)
    (now : Int) (tasks : List FTask) (hc : PutContract put) :
    ((overdueCandidates parse off now tasks = [] ∧ resetCandidates parse off now tasks = []) →
        normalizeOverdueTasks put parse off now tasks = tasks ∧
          desiredUpdates parse off now tasks = []) ∧
      desiredUpdates parse off now (normalizeOverdueTasks put parse off now tasks) = [] ∧
      ∀ put2 : PutFn,
        normalizeOverdueTasks put2 parse off now (normalizeOverdueTasks put parse off now tasks) =
          normalizeOverdueTasks put parse off now tasks := by
  obtain ⟨h1, h2⟩ := @output_candidates_nil put parse off now tasks hc
  refine ⟨?_, ?_, ?_⟩
  · rintro ⟨hn1, hn2⟩
    refine ⟨normalize_of_nil hn1 hn2, ?_⟩
    unfold desiredUpdates
    rw [hn1, hn2]
    rfl
  · unfold desiredUpdates
    rw [h1, h2]
    rfl
  · intro put2
    exact normalize_of_nil h1 h2

/-- C4 witness: `c4_reconciliation_idempotent` applied to an echoing server
and a singleton list holding an active task with a past due date (which the
first run does flag and update). -/
theorem c4_reconciliation_idempotent_witness :
    desiredUpdates parseFix offFix 100
        (normalizeOverdueTasks putEcho parseFix offFix 100
          [{ taskNoIdPast with id := some 1 }]) = [] :=
  (c4_reconciliation_idempotent putEcho parseFix offFix 100
    [{ taskNoIdPast with id := some 1 }] putEcho_contract).2.1

/-! ## Claim C5: per-task failure isolation -/

/-- Tasks that carry an id are pairwise distinguished by it (true of any
list fetched from the store, whose `id` is the primary key). -/
def IdInjective (tasks : List FTask) : Prop :=
  ∀ t ∈ tasks, ∀ u ∈ tasks, t.id = u.id → t.id ≠ none → t = u

instance (tasks : List FTask) : Decidable (IdInjective tasks) := by
  unfold IdInjective
  infer_instance

/-- The result rule claim C5 states, written per task: the server-returned
task when that task's update succeeded, the locally patched task when the
policy flags it but the update failed, the original task otherwise. -/
def specPerTaskResult (put : PutFn) (parse : ParseFn) (off : OffsetFn) (now : Int)
    (t : FTask) : FTask :=
  if shouldMarkTaskAsOverdue parse off t now then
    match put t TaskStatus.overdue with
    | some r => r
    | none => { t with status := TaskStatus.overdue }
  else if shouldResetOverdueStatus parse off t now then
    match put t TaskStatus.pending with
    | some r => r
    | none => { t with status := TaskStatus.pending }
  else t

/-- Any map entry keyed by the id of `t` comes from an update issued for `t`
itself (given id-injectivity and the server contract). -/
lemma pairs_entry_of_key {put : PutFn} {parse : ParseFn} {off : OffsetFn} {now : Int}
    {tasks : List FTask} {t : FTask} {i : Nat} {r2 : FTask}
    (hc : PutContract put) (hinj : IdInjective tasks)
    (ht : t ∈ tasks) (htid : t.id = some i)
    (hpair : (i, r2) ∈ updatedPairs put parse off now tasks) :
    ∃ s2, ((shouldMarkTaskAsOverdue parse off t now = true ∧ s2 = TaskStatus.overdue) ∨
        (shouldResetOverdueStatus parse off t now = true ∧ s2 = TaskStatus.pending)) ∧
      put t s2 = some r2 := by
  obtain ⟨t2, s2, hdes, hput2, hid2⟩ := mem_updatedPairs.mp hpair
  obtain ⟨ht2, hflag⟩ := mem_desiredUpdates.mp hdes
  obtain ⟨hid, -, -⟩ := hc t2 s2 r2 hput2
  have ht2id : t2.id = some i := by rw [← hid, hid2]
  have : t2 = t := hinj t2 ht2 t ht (by rw [ht2id, htid]) (by rw [ht2id]; exact Option.some_ne_none i)
  subst this
  exact ⟨s2, hflag, hput2⟩

/-- C5: within one pass, per-task update outcomes are isolated: whatever the
transport does, the result list is exactly the input mapped through the
per-task rule — the server task where the update succeeded, the locally
patched status where the policy flags the task but its update failed, and
the unchanged task otherwise.  No transport failure escapes the pass. -/
theorem c5_failure_isolation (put : PutFn) (parse : ParseFn) (off : OffsetFn)
    (now : Int) (tasks : List FTask) (hc : PutContract put) (hinj : IdInjective tasks) :
    normalizeOverdueTasks put parse off now tasks =
      tasks.map (specPerTaskResult put parse off now) := by
  by_cases hnil : overdueCandidates parse off now tasks = [] ∧
      resetCandidates parse off now tasks = []
  · rw [normalize_of_nil hnil.1 hnil.2]
    have hm : ∀ t ∈ tasks, shouldMarkTaskAsOverdue parse off t now = false := fun t ht => by
      have := List.filter_eq_nil_iff.mp hnil.1 t ht
      simpa using this
    have hr : ∀ t ∈ tasks, shouldResetOverdueStatus parse off t now = false := fun t ht => by
      have := List.filter_eq_nil_iff.mp hnil.2 t ht
      simpa using this
    have : ∀ t ∈ tasks, specPerTaskResult put parse off now t = id t := fun t ht => by
      unfold specPerTaskResult
      rw [if_neg (by rw [hm t ht]; exact Bool.false_ne_true),
        if_neg (by rw [hr t ht]; exact Bool.false_ne_true)]
      rfl
    rw [List.map_congr_left this, List.map_id]
  · unfold normalizeOverdueTasks
    rw [if_neg hnil]
    refine List.map_congr_left fun t ht => ?_
    unfold perTaskLookup specPerTaskResult
    by_cases hm : shouldMarkTaskAsOverdue parse off t now = true
    · obtain ⟨hidt, -, -⟩ := shouldMark_extract hm
      obtain ⟨i, hji, htid⟩ := jsTruthyId_exists hidt
      rw [if_pos hm]
      cases hput : put t TaskStatus.overdue with
      | some r =>
        have hrid : r.id = some i := by rw [(hc t _ r hput).1, htid]
        have hmem : (i, r) ∈ updatedPairs put parse off now tasks :=
          mem_updatedPairs.mpr ⟨t, TaskStatus.overdue,
            mem_desiredUpdates.mpr ⟨ht, Or.inl ⟨hm, rfl⟩⟩, hput, hrid⟩
        have huniq : ∀ r2, (i, r2) ∈ updatedPairs put parse off now tasks → r2 = r := by
          intro r2 hp2
          obtain ⟨s2, hflag, hput2⟩ := pairs_entry_of_key hc hinj ht htid hp2
          rcases hflag with ⟨-, rfl⟩ | ⟨hres, -⟩
          · rw [hput] at hput2
            exact (Option.some.inj hput2).symm
          · rw [mark_reset_exclusive parse off t now hm] at hres
            cases hres
        simp only [hji, mapGet_some_of_mem hmem huniq]
      | none =>
        have hnone : mapGet (updatedPairs put parse off now tasks) i = none := by
          refine mapGet_eq_none fun p hp => ?_
          obtain ⟨p1, p2⟩ := p
          intro hp1
          subst hp1
          obtain ⟨s2, hflag, hput2⟩ := pairs_entry_of_key hc hinj ht htid hp
          rcases hflag with ⟨-, rfl⟩ | ⟨hres, -⟩
          · rw [hput] at hput2; cases hput2
          · rw [mark_reset_exclusive parse off t now hm] at hres
            cases hres
        simp only [hji, hnone]
        unfold localFallback
        rw [if_pos hm]
    · by_cases hr : shouldResetOverdueStatus parse off t now = true
      · obtain ⟨hidt, -, -⟩ := shouldReset_extract hr
        obtain ⟨i, hji, htid⟩ := jsTruthyId_exists hidt
        rw [if_neg hm, if_pos hr]
        cases hput : put t TaskStatus.pending with
        | some r =>
          have hrid : r.id = some i := by rw [(hc t _ r hput).1, htid]
          have hmem : (i, r) ∈ updatedPairs put parse off now tasks :=
            mem_updatedPairs.mpr ⟨t, TaskStatus.pending,
              mem_desiredUpdates.mpr ⟨ht, Or.inr ⟨hr, rfl⟩⟩, hput, hrid⟩
          have huniq : ∀ r2, (i, r2) ∈ updatedPairs put parse off now tasks → r2 = r := by
            intro r2 hp2
            obtain ⟨s2, hflag, hput2⟩ := pairs_entry_of_key hc hinj ht htid hp2
            rcases hflag with ⟨hmk, -⟩ | ⟨-, rfl⟩
            · exact absurd hmk hm
            · rw [hput] at hput2
              exact (Option.some.inj hput2).symm
          simp only [hji, mapGet_some_of_mem hmem huniq]
        | none =>
          have hnone : mapGet (updatedPairs put parse off now tasks) i = none := by
            refine mapGet_eq_none fun p hp => ?_
            obtain ⟨p1, p2⟩ := p
            intro hp1
            subst hp1
            obtain ⟨s2, hflag, hput2⟩ := pairs_entry_of_key hc hinj ht htid hp
            rcases hflag with ⟨hmk, -⟩ | ⟨-, rfl⟩
            · exact absurd hmk hm
            · rw [hput] at hput2; cases hput2
          simp only [hji, hnone]
          unfold localFallback
          rw [if_neg hm, if_pos hr]
      · rw [if_neg hm, if_neg hr]
        cases hji : jsId t.id with
        | none =>
          simp only [hji]
          unfold localFallback
          rw [if_neg hm, if_neg hr]
        | some i =>
          have htid : t.id = some i := jsId_eq_some hji
          have hnone : mapGet (updatedPairs put parse off now tasks) i = none := by
            refine mapGet_eq_none fun p hp => ?_
            obtain ⟨p1, p2⟩ := p
            intro hp1
            subst hp1
            obtain ⟨s2, hflag, -⟩ := pairs_entry_of_key hc hinj ht htid hp
            rcases hflag with ⟨hmk, -⟩ | ⟨hres, -⟩
            · exact absurd hmk hm
            · exact absurd hres hr
          simp only [hji, hnone]
          unfold localFallback
          rw [if_neg hm, if_neg hr]

/-- C5 witness: a two-task list where the transport fails for every call —
the first task (active, past due) still gets Overdue applied locally, the
second (untouched) is returned unchanged. -/
theorem c5_failure_isolation_witness :
    IdInjective [{ taskNoIdPast with id := some 1 }, { taskNoIdFuture with id := some 2 }] ∧
      normalizeOverdueTasks (fun _ _ => none) parseFix offFix 100
          [{ taskNoIdPast with id := some 1 }, { taskNoIdFuture with id := some 2 }] =
        [{ taskNoIdPast with id := some 1 }, { taskNoIdFuture with id := some 2 }].map
          (specPerTaskResult (fun _ _ => none) parseFix offFix 100) :=
  ⟨by decide,
    c5_failure_isolation (fun _ _ => none) parseFix offFix 100
      [{ taskNoIdPast with id := some 1 }, { taskNoIdFuture with id := some 2 }]
      (fun _ _ _ h => Option.noConfusion h) (by decide)⟩

/-! ## Claim C9: shape preservation -/

/-- Every field except `status` agrees between `a` and `b`. -/
def sameExceptStatus (a b : FTask) : Prop :=
  b.id = a.id ∧ b.title = a.title ∧ b.description = a.description ∧
    b.taskcode = a.taskcode ∧ b.due_date = a.due_date ∧
    b.created_at = a.created_at ∧ b.updated_at = a.updated_at

lemma fallback_sameExceptStatus (parse : ParseFn) (off : OffsetFn) (now : Int) (t : FTask) :
    sameExceptStatus t (localFallback parse off now t) := by
  unfold localFallback sameExceptStatus
  by_cases h1 : shouldMarkTaskAsOverdue parse off t now = true
  · rw [if_pos h1]
    exact ⟨rfl, rfl, rfl, rfl, rfl, rfl, rfl⟩
  · rw [if_neg h1]
    by_cases h2 : shouldResetOverdueStatus parse off t now = true
    · rw [if_pos h2]
      exact ⟨rfl, rfl, rfl, rfl, rfl, rfl, rfl⟩
    · rw [if_neg h2]
      exact ⟨rfl, rfl, rfl, rfl, rfl, rfl, rfl⟩

/-- The per-task rebuild keeps the task's id: on a map hit the stored value
is keyed by its own response id, which is the id looked up. -/
lemma perTaskLookup_id (put : PutFn) (parse : ParseFn) (off : OffsetFn) (now : Int)
    (tasks : List FTask) (t : FTask) :
    (perTaskLookup (updatedPairs put parse off now tasks) parse off now t).id = t.id := by
  unfold perTaskLookup
  cases hji : jsId t.id with
  | none => simp only; exact fallback_id parse off now t
  | some i =>
    simp only
    cases hget : mapGet (updatedPairs put parse off now tasks) i with
    | none => simp only; exact fallback_id parse off now t
    | some r =>
      simp only
      obtain ⟨-, -, -, -, hrid⟩ := mem_updatedPairs.mp (mapGet_mem hget)
      rw [hrid, jsId_eq_some hji]

/-- C9: the Reconciliation Pass preserves the shape of its input — the
output has the same length, the task at each position keeps the id of the
input task at that position, and the local fallback changes nothing but the
status of the task it patches. -/
theorem c9_shape_preserved (put : PutFn) (parse : ParseFn) (off : OffsetFn)
    (now : Int) (tasks : List FTask) :
    (normalizeOverdueTasks put parse off now tasks).length = tasks.length ∧
      (normalizeOverdueTasks put parse off now tasks).map FTask.id = tasks.map FTask.id ∧
      ∀ t : FTask, sameExceptStatus t (localFallback parse off now t) := by
  refine ⟨?_, ?_, fallback_sameExceptStatus parse off now⟩ <;>
    · unfold normalizeOverdueTasks
      by_cases hnil : overdueCandidates parse off now tasks = [] ∧
          resetCandidates parse off now tasks = []
      · rw [if_pos hnil]
      · rw [if_neg hnil]
        first
        | exact List.length_map tasks _
        | · rw [List.map_map]
            exact List.map_congr_left fun t _ =>
              perTaskLookup_id put parse off now tasks t

/-! ## Backend helper lemmas -/

/-- Store rows are pairwise distinguished by their code (the `UNIQUE`
constraint on the `taskcode` column). -/
def CodeInjective (store : List BTask) : Prop :=
  ∀ r ∈ store, ∀ u ∈ store, r.taskcode = u.taskcode → r = u

instance (store : List BTask) : Decidable (CodeInjective store) := by
  unfold CodeInjective
  infer_instance

lemma getTaskByCode_spec {store : List BTask} {code : String} {r : BTask}
    (h : getTaskByCode store code = some r) : r ∈ store ∧ r.taskcode = code := by
  unfold getTaskByCode at h
  refine ⟨List.mem_of_find?_eq_some h, ?_⟩
  have := List.find?_some h
  simpa using this

lemma getTaskByCode_isSome {store : List BTask} {code : String} {r : BTask}
    (hr : r ∈ store) (hc : r.taskcode = code) : ∃ u, getTaskByCode store code = some u := by
  unfold getTaskByCode
  have : (store.find? fun u => u.taskcode = code).isSome := by
    rw [List.find?_isSome]
    exact ⟨r, hr, by simpa using hc⟩
  exact Option.isSome_iff_exists.mp this

lemma updateService_snd {id : Nat} {b : UpdateBody} {now : Int} {store : List BTask}
    (hne : b.isEmpty = false) :
    (updateTaskService id b now store).2 =
      store.map fun r => if r.id = id then applyUpdate b now r else r := by
  unfold updateTaskService
  rw [if_neg (by rw [hne]; exact Bool.false_ne_true)]

lemma updateService_fst {id : Nat} {b : UpdateBody} {now : Int} {store : List BTask}
    (hne : b.isEmpty = false) :
    (updateTaskService id b now store).1 =
      (store.map fun r => if r.id = id then applyUpdate b now r else r).find?
        (fun r => r.id = id) := by
  unfold updateTaskService
  rw [if_neg (by rw [hne]; exact Bool.false_ne_true)]

lemma updateRespond_ok_inversion {id : Nat} {b : UpdateBody} {now : Int}
    {store store2 : List BTask} {u : BTask}
    (h : updateRespond id b now store = (UpdateResponse.ok u, store2)) :
    updateTaskService id b now store = (some u, store2) := by
  unfold updateRespond at h
  cases hsrv : updateTaskService id b now store with
  | mk o s2 =>
    rw [hsrv] at h
    cases o with
    | none => simp at h
    | some t =>
      simp only [Prod.mk.injEq, UpdateResponse.ok.injEq] at h
      rw [h.1, h.2]

lemma updateRespond_snd {id : Nat} {b : UpdateBody} {now : Int} {store : List BTask} :
    (updateRespond id b now store).2 = (updateTaskService id b now store).2 := by
  unfold updateRespond
  cases hsrv : updateTaskService id b now store with
  | mk o s2 => cases o <;> rfl

/-- Inversion: a 200 answer of the update controller comes from the service
returning the refreshed row and its store. -/
lemma updateController_ok_inversion {id : Nat} {b : UpdateBody} {now : Int}
    {store store2 : List BTask} {u : BTask}
    (h : updateTaskController id b now store = (UpdateResponse.ok u, store2)) :
    updateTaskService id b now store = (some u, store2) := by
  unfold updateTaskController at h
  by_cases h1 : jsTruthyStr b.taskcode = true
  · rw [if_pos h1] at h
    by_cases h2 : (b.taskcode.getD "").length ≠ 5
    · rw [if_pos h2] at h
      simp at h
    · rw [if_neg h2] at h
      cases hfind : getTaskByCode store (b.taskcode.getD "") with
      | none =>
        simp only [hfind] at h
        exact updateRespond_ok_inversion h
      | some ex =>
        simp only [hfind] at h
        by_cases h3 : ex.id ≠ id
        · rw [if_pos h3] at h
          simp at h
        · rw [if_neg h3] at h
          exact updateRespond_ok_inversion h
  · rw [if_neg h1] at h
    exact updateRespond_ok_inversion h

/-- The update controller's resulting store is the input store (on a
rejection) or the service's store. -/
lemma updateController_snd {id : Nat} {b : UpdateBody} {now : Int} {store : List BTask} :
    (updateTaskController id b now store).2 = store ∨
      (updateTaskController id b now store).2 = (updateTaskService id b now store).2 := by
  unfold updateTaskController
  by_cases h1 : jsTruthyStr b.taskcode = true
  · rw [if_pos h1]
    by_cases h2 : (b.taskcode.getD "").length ≠ 5
    · rw [if_pos h2]
      exact Or.inl rfl
    · rw [if_neg h2]
      cases hfind : getTaskByCode store (b.taskcode.getD "") with
      | none =>
        simp only [hfind]
        exact Or.inr updateRespond_snd
      | some ex =>
        simp only [hfind]
        by_cases h3 : ex.id ≠ id
        · rw [if_pos h3]
          exact Or.inl rfl
        · rw [if_neg h3]
          exact Or.inr updateRespond_snd
  · rw [if_neg h1]
    exact Or.inr updateRespond_snd

/-! ## Claim C6: code uniqueness at the boundary -/

lemma length_ne_empty {code : String} (h : code.length = 5) : code ≠ "" := by
  intro hc
  subst hc
  simp at h

/-- C6: code uniqueness is enforced before any write.  Creating with a code
already present is rejected with the duplicate-code error and the store is
unchanged; updating a row to a code owned by a different row is rejected
likewise with the store unchanged; updating a row to its own current code
passes the duplicate check and answers 200. -/
theorem c6_code_uniqueness :
    (∀ (body : CreateBody) (now : Int) (nextId : Nat) (store : List BTask) (code : String),
      body.taskcode = some code → jsTruthyStr body.title = true → code.length = 5 →
        (∃ r ∈ store, r.taskcode = code) →
        createTaskController body now nextId store =
          (CreateResponse.badRequest "Taskcode already exists", store)) ∧
    (∀ (id : Nat) (b : UpdateBody) (now : Int) (store : List BTask) (code : String),
      b.taskcode = some code → code.length = 5 → CodeInjective store →
        (∃ r ∈ store, r.taskcode = code ∧ r.id ≠ id) →
        updateTaskController id b now store =
          (UpdateResponse.badRequest "Taskcode already exists", store)) ∧
    (∀ (id : Nat) (b : UpdateBody) (now : Int) (store : List BTask) (t : BTask),
      t ∈ store → t.id = id → b.taskcode = some t.taskcode → t.taskcode.length = 5 →
        CodeInjective store →
        ∃ u store2, updateTaskController id b now store = (UpdateResponse.ok u, store2)) := by
  refine ⟨?_, ?_, ?_⟩
  · intro body now nextId store code hbc htitle hlen ⟨r, hr, hrc⟩
    obtain ⟨u, hfind⟩ := getTaskByCode_isSome hr hrc
    unfold createTaskController
    have hct : jsTruthyStr body.taskcode = true := by
      rw [hbc]
      simp [jsTruthyStr, length_ne_empty hlen]
    rw [if_neg (by rw [htitle, hct]; simp)]
    rw [hbc]
    simp only [Option.getD_some]
    rw [if_neg (by rw [hlen]; simp)]
    simp only [hfind]
  · intro id b now store code hbc hlen hinj ⟨r, hr, hrc, hrid⟩
    obtain ⟨u, hfind⟩ := getTaskByCode_isSome hr hrc
    obtain ⟨hu, huc⟩ := getTaskByCode_spec hfind
    have hur : u = r := hinj u hu r hr (by rw [huc, hrc])
    unfold updateTaskController
    have hct : jsTruthyStr b.taskcode = true := by
      rw [hbc]
      simp [jsTruthyStr, length_ne_empty hlen]
    rw [if_pos hct, hbc]
    simp only [Option.getD_some]
    rw [if_neg (by rw [hlen]; simp)]
    simp only [hfind]
    rw [if_pos (by rw [hur]; exact hrid)]
  · intro id b now store t ht hid hbc hlen hinj
    obtain ⟨u, hfind⟩ := getTaskByCode_isSome ht rfl
    obtain ⟨hu, huc⟩ := getTaskByCode_spec hfind
    have hut : u = t := hinj u hu t ht huc
    have hne : b.isEmpty = false := by
      unfold UpdateBody.isEmpty
      rw [hbc]
      simp
    have hmem : applyUpdate b now t ∈ (updateTaskService id b now store).2 := by
      rw [updateService_snd hne]
      have := List.mem_map_of_mem (fun r => if r.id = id then applyUpdate b now r else r) ht
      simpa [hid] using this
    have hsome : ((updateTaskService id b now store).2.find? fun r => r.id = id).isSome := by
      rw [List.find?_isSome]
      exact ⟨applyUpdate b now t, hmem, by
        have : (applyUpdate b now t).id = t.id := rfl
        simp [this, hid]⟩
    obtain ⟨v, hv⟩ := Option.isSome_iff_exists.mp hsome
    have hsrv : updateTaskService id b now store =
        (some v, (updateTaskService id b now store).2) := by
      have h1 := @updateService_fst id b now store hne
      have h2 := @updateService_snd id b now store hne
      rw [Prod.ext_iff]
      refine ⟨?_, rfl⟩
      rw [h1, ← h2, hv]
    refine ⟨v, (updateTaskService id b now store).2, ?_⟩
    unfold updateTaskController
    have hct : jsTruthyStr b.taskcode = true := by
      rw [hbc]
      simp [jsTruthyStr, length_ne_empty hlen]
    rw [if_pos hct, hbc]
    simp only [Option.getD_some]
    rw [if_neg (by rw [hlen]; simp)]
    simp only [hfind]
    rw [if_neg (by rw [hut, hid]; simp)]
    unfold updateRespond
    rw [hsrv]

/-- C6 witness: a concrete store with two rows — creation with an existing
code is rejected, an update stealing another row's code is rejected, and an
update re-submitting the row's own code answers 200. -/
theorem c6_code_uniqueness_witness :
    (createTaskController
        { title := some "New", description := none, status := none,
          taskcode := some "AB123", due_date := none } 9 3
        [{ id := 1, title := "A", description := none, status := TaskStatus.pending,
           taskcode := "AB123", due_date := none, created_at := 0, updated_at := 0 },
         { id := 2, title := "B", description := none, status := TaskStatus.pending,
           taskcode := "CD456", due_date := none, created_at := 0, updated_at := 0 }] =
      (CreateResponse.badRequest "Taskcode already exists",
        [{ id := 1, title := "A", description := none, status := TaskStatus.pending,
           taskcode := "AB123", due_date := none, created_at := 0, updated_at := 0 },
         { id := 2, title := "B", description := none, status := TaskStatus.pending,
           taskcode := "CD456", due_date := none, created_at := 0, updated_at := 0 }])) ∧
    (updateTaskController 2
        { title := none, description := none, status := none,
          taskcode := some "AB123", due_date := none } 9
        [{ id := 1, title := "A", description := none, status := TaskStatus.pending,
           taskcode := "AB123", due_date := none, created_at := 0, updated_at := 0 },
         { id := 2, title := "B", description := none, status := TaskStatus.pending,
           taskcode := "CD456", due_date := none, created_at := 0, updated_at := 0 }] =
      (UpdateResponse.badRequest "Taskcode already exists",
        [{ id := 1, title := "A", description := none, status := TaskStatus.pending,
           taskcode := "AB123", due_date := none, created_at := 0, updated_at := 0 },
         { id := 2, title := "B", description := none, status := TaskStatus.pending,
           taskcode := "CD456", due_date := none, created_at := 0, updated_at := 0 }])) ∧
    (∃ u store2, updateTaskController 1
        { title := none, description := none, status := none,
          taskcode := some "AB123", due_date := none } 9
        [{ id := 1, title := "A", description := none, status := TaskStatus.pending,
           taskcode := "AB123", due_date := none, created_at := 0, updated_at := 0 },
         { id := 2, title := "B", description := none, status := TaskStatus.pending,
           taskcode := "CD456", due_date := none, created_at := 0, updated_at := 0 }] =
      (UpdateResponse.ok u, store2)) := by
  refine ⟨?_, ?_, ?_⟩
  · exact c6_code_uniqueness.1 _ 9 3 _ "AB123" rfl (by decide) (by decide)
      ⟨{ id := 1, title := "A", description := none, status := TaskStatus.pending,
         taskcode := "AB123", due_date := none, created_at := 0, updated_at := 0 },
        by decide, rfl⟩
  · exact c6_code_uniqueness.2.1 2 _ 9 _ "AB123" rfl (by decide) (by decide)
      ⟨{ id := 1, title := "A", description := none, status := TaskStatus.pending,
         taskcode := "AB123", due_date := none, created_at := 0, updated_at := 0 },
        by decide, rfl, by decide⟩
  · exact c6_code_uniqueness.2.2 1 _ 9 _
      { id := 1, title := "A", description := none, status := TaskStatus.pending,
        taskcode := "AB123", due_date := none, created_at := 0, updated_at := 0 }
      (by decide) rfl rfl (by decide) (by decide)

/-! ## Claim C7: the POST /api/tasks boundary validation -/

/-- A 101-character title. -/
def longTitle : String := String.mk (List.replicate 101 'a')

/-- A create body carrying an over-long title and a 5-character code with a
non-alphanumeric character — both of which the claim says the boundary
rejects. -/
def overLongBody : CreateBody :=
  { title := some longTitle, description := none, status := none,
    taskcode := some "ab!cd", due_date := none }

/-- C7 counterexample: the controller performs no title-length check and no
alphanumeric check — a request whose title has 101 characters and whose code
contains `!` passes validation, reaches the create operation, and inserts a
row, where the claim demands a 400 rejection before any store mutation. -/
theorem c7_counterexample :
    longTitle.length = 101 ∧
      (("ab!cd" : String).length = 5 ∧ ("ab!cd" : String).data.all Char.isAlphanum = false) ∧
      createTaskController overLongBody 0 7 [] =
        (CreateResponse.created
          { id := 7, title := longTitle, description := none, status := TaskStatus.pending,
            taskcode := "ab!cd", due_date := none, created_at := 0, updated_at := 0 },
          [{ id := 7, title := longTitle, description := none, status := TaskStatus.pending,
             taskcode := "ab!cd", due_date := none, created_at := 0, updated_at := 0 }]) := by
  refine ⟨?_, ⟨?_, ?_⟩, ?_⟩ <;> decide

/-- C7 (amended): the boundary rejects with 400, before any store mutation,
exactly when the title is missing/empty, the code is missing/empty, the
code's length is not 5, or the code duplicates an existing row's code; every
other request — regardless of title length or code characters — reaches the
create operation and inserts a row. -/
theorem c7_boundary_validation (body : CreateBody) (now : Int) (nextId : Nat)
    (store : List BTask) :
    ((jsTruthyStr body.title = false ∨ jsTruthyStr body.taskcode = false) →
      createTaskController body now nextId store =
        (CreateResponse.badRequest "Title and taskcode are required", store)) ∧
    (∀ code, body.taskcode = some code → jsTruthyStr body.title = true → code ≠ "" →
      code.length ≠ 5 →
      createTaskController body now nextId store =
        (CreateResponse.badRequest "Taskcode must be exactly 5 characters", store)) ∧
    (∀ code r, body.taskcode = some code → jsTruthyStr body.title = true →
      code.length = 5 → getTaskByCode store code = some r →
      createTaskController body now nextId store =
        (CreateResponse.badRequest "Taskcode already exists", store)) ∧
    (∀ code, body.taskcode = some code → jsTruthyStr body.title = true →
      code.length = 5 → getTaskByCode store code = none →
      ∃ t, createTaskController body now nextId store =
        (CreateResponse.created t, store ++ [t])) := by
  refine ⟨?_, ?_, ?_, ?_⟩
  · intro h
    unfold createTaskController
    rcases h with h | h <;> rw [if_pos (by rw [h]; simp)]
  · intro code hbc htitle hcne hlen
    unfold createTaskController
    have hct : jsTruthyStr body.taskcode = true := by
      rw [hbc]
      simp [jsTruthyStr, hcne]
    rw [if_neg (by rw [htitle, hct]; simp), hbc]
    simp only [Option.getD_some]
    rw [if_pos hlen]
  · intro code r hbc htitle hlen hfind
    unfold createTaskController
    have hct : jsTruthyStr body.taskcode = true := by
      rw [hbc]
      simp [jsTruthyStr, length_ne_empty hlen]
    rw [if_neg (by rw [htitle, hct]; simp), hbc]
    simp only [Option.getD_some]
    rw [if_neg (by rw [hlen]; simp)]
    simp only [hfind]
  · intro code hbc htitle hlen hfind
    unfold createTaskController
    have hct : jsTruthyStr body.taskcode = true := by
      rw [hbc]
      simp [jsTruthyStr, length_ne_empty hlen]
    rw [if_neg (by rw [htitle, hct]; simp), hbc]
    simp only [Option.getD_some]
    rw [if_neg (by rw [hlen]; simp)]
    simp only [hfind]
    exact ⟨_, rfl⟩

/-- C7 witness: `c7_boundary_validation` applied concretely — a body with no
code is rejected with the required-fields message, and a wrong-length code is
rejected with the length message. -/
theorem c7_boundary_validation_witness :
    (createTaskController
        { title := some "T", description := none, status := none,
          taskcode := none, due_date := none } 0 1 [] =
      (CreateResponse.badRequest "Title and taskcode are required", [])) ∧
    (createTaskController
        { title := some "T", description := none, status := none,
          taskcode := some "AB12", due_date := none } 0 1 [] =
      (CreateResponse.badRequest "Taskcode must be exactly 5 characters", [])) :=
  ⟨(c7_boundary_validation _ 0 1 []).1 (Or.inr (by decide)),
    (c7_boundary_validation _ 0 1 []).2.1 "AB12" rfl (by decide) (by decide) (by decide)⟩

/-! ## Claim C8: `updated_at` behaviour -/

/-- A stored row whose timestamps predate the scenario's `now`. -/
def rowFix : BTask :=
  { id := 1, title := "A", description := none, status := TaskStatus.pending,
    taskcode := "AB123", due_date := none, created_at := 0, updated_at := 0 }

/-- The empty partial update: `PUT /api/tasks/1` with a body providing no
recognised field. -/
def emptyBody : UpdateBody :=
  { title := none, description := none, status := none, taskcode := none, due_date := none }

/-- C8 counterexample: an accepted (HTTP 200) partial update that provides
no recognised field returns the row unchanged — `updated_at` is not advanced
to the mutation time, where the claim demands that every accepted partial
update advance it. -/
theorem c8_counterexample :
    updateTaskController 1 emptyBody 5 [rowFix] = (UpdateResponse.ok rowFix, [rowFix]) ∧
      rowFix.updated_at ≠ 5 := by
  refine ⟨?_, ?_⟩ <;> decide

/-- C8 (amended): `updated_at ≥ created_at` is preserved by creation and by
every update (given a clock not earlier than the stored creation times), and
every accepted partial update that provides at least one recognised field
stamps `updated_at` with the mutation time on the targeted row — including
the status-only reconciliation update.  An accepted update providing no
field leaves the row untouched. -/
theorem c8_updated_at :
    (∀ (body : CreateBody) (now : Int) (nextId : Nat) (store : List BTask),
      (∀ r ∈ store, r.created_at ≤ r.updated_at) →
        ∀ r ∈ (createTaskController body now nextId store).2, r.created_at ≤ r.updated_at) ∧
    (∀ (id : Nat) (b : UpdateBody) (now : Int) (store : List BTask),
      (∀ r ∈ store, r.created_at ≤ r.updated_at) → (∀ r ∈ store, r.created_at ≤ now) →
        ∀ r ∈ (updateTaskController id b now store).2, r.created_at ≤ r.updated_at) ∧
    (∀ (id : Nat) (b : UpdateBody) (now : Int) (store store2 : List BTask) (u : BTask),
      b.isEmpty = false →
        updateTaskController id b now store = (UpdateResponse.ok u, store2) →
        u.updated_at = now ∧ ∀ r ∈ store2, r.id = id → r.updated_at = now) := by
  refine ⟨?_, ?_, ?_⟩
  · intro body now nextId store hinv r hr
    unfold createTaskController at hr
    by_cases h1 : jsTruthyStr body.title = false ∨ jsTruthyStr body.taskcode = false
    · rw [if_pos (by rcases h1 with h | h <;> rw [h] <;> simp)] at hr
      exact hinv r hr
    · rw [if_neg (by simpa using h1)] at hr
      by_cases h2 : (body.taskcode.getD "").length ≠ 5
      · rw [if_pos h2] at hr
        exact hinv r hr
      · rw [if_neg h2] at hr
        cases hfind : getTaskByCode store (body.taskcode.getD "") with
        | some ex =>
          simp only [hfind] at hr
          exact hinv r hr
        | none =>
          simp only [hfind] at hr
          rcases List.mem_append.mp hr with hold | hnew
          · exact hinv r hold
          · rw [List.mem_singleton.mp hnew]
  · intro id b now store hinv hclock r hr
    rcases @updateController_snd id b now store with heq | heq
    · rw [heq] at hr
      exact hinv r hr
    · rw [heq] at hr
      by_cases hne : b.isEmpty = true
      · unfold updateTaskService at hr
        rw [if_pos hne] at hr
        exact hinv r hr
      · rw [updateService_snd (Bool.eq_false_iff.mpr hne)] at hr
        obtain ⟨r0, hr0, hfr⟩ := List.mem_map.mp hr
        by_cases hid : r0.id = id
        · rw [if_pos hid] at hfr
          rw [← hfr]
          exact hclock r0 hr0
        · rw [if_neg hid] at hfr
          rw [← hfr]
          exact hinv r0 hr0
  · intro id b now store store2 u hne hok
    have hsrv := updateController_ok_inversion hok
    have hstores : store2 = (updateTaskService id b now store).2 := by
      rw [hsrv]
    have hall : ∀ r ∈ store2, r.id = id → r.updated_at = now := by
      intro r hr hid
      rw [hstores, updateService_snd hne] at hr
      obtain ⟨r0, hr0, hfr⟩ := List.mem_map.mp hr
      by_cases h0 : r0.id = id
      · rw [if_pos h0] at hfr
        rw [← hfr]
        rfl
      · rw [if_neg h0] at hfr
        rw [← hfr] at hid
        exact absurd hid h0
    refine ⟨?_, hall⟩
    have hufind : (updateTaskService id b now store).1 = some u := by rw [hsrv]
    rw [updateService_fst hne] at hufind
    have humem : u ∈ (store.map fun r => if r.id = id then applyUpdate b now r else r) :=
      List.mem_of_find?_eq_some hufind
    have huid : u.id = id := by
      have := List.find?_some hufind
      simpa using this
    refine hall u ?_ huid
    rw [hstores, updateService_snd hne]
    exact humem

/-- C8 witness: a status-only update of the stored row answers 200 and
stamps `updated_at` with the mutation time. -/
theorem c8_updated_at_witness :
    ({ title := none, description := none, status := some TaskStatus.completed,
        taskcode := none, due_date := none } : UpdateBody).isEmpty = false ∧
      updateTaskController 1
          { title := none, description := none, status := some TaskStatus.completed,
            taskcode := none, due_date := none } 5 [rowFix] =
        (UpdateResponse.ok { rowFix with status := TaskStatus.completed, updated_at := 5 },
          [{ rowFix with status := TaskStatus.completed, updated_at := 5 }]) ∧
      ({ rowFix with status := TaskStatus.completed, updated_at := 5 } : BTask).updated_at = 5 ∧
      ∀ r ∈ [({ rowFix with status := TaskStatus.completed, updated_at := 5 } : BTask)],
        r.id = 1 → r.updated_at = 5 :=
  ⟨by decide, by decide,
    (c8_updated_at.2.2 1
      { title := none, description := none, status := some TaskStatus.completed,
        taskcode := none, due_date := none } 5 [rowFix]
      [{ rowFix with status := TaskStatus.completed, updated_at := 5 }]
      { rowFix with status := TaskStatus.completed, updated_at := 5 }
      (by decide) (by decide)).1,
    (c8_updated_at.2.2 1
      { title := none, description := none, status := some TaskStatus.completed,
        taskcode := none, due_date := none } 5 [rowFix]
      [{ rowFix with status := TaskStatus.completed, updated_at := 5 }]
      { rowFix with status := TaskStatus.completed, updated_at := 5 }
      (by decide) (by decide)).2⟩

/-! ## Claim C10: idempotence of `normalizeToMelbourneIso` — trim machinery -/

lemma dropWhile_head_false {p : Char → Bool} :
    ∀ {l : List Char} {c : Char} {cs : List Char}, l.dropWhile p = c :: cs → p c = false := by
  intro l
  induction l with
  | nil => intro c cs h; cases h
  | cons a t ih =>
    intro c cs h
    rw [List.dropWhile_cons] at h
    by_cases hp : p a = true
    · rw [if_pos hp] at h
      exact ih h
    · rw [if_neg hp] at h
      obtain ⟨rfl, -⟩ := List.cons.inj h
      exact Bool.eq_false_iff.mpr hp

lemma dropWhile_dropWhile {p : Char → Bool} (l : List Char) :
    (l.dropWhile p).dropWhile p = l.dropWhile p := by
  cases h : l.dropWhile p with
  | nil => rfl
  | cons c cs =>
    rw [List.dropWhile_cons, if_neg (by rw [dropWhile_head_false h]; simp)]

lemma ltrim_idem (l : List Char) : ltrim (ltrim l) = ltrim l :=
  dropWhile_dropWhile l

lemma rtrim_idem (l : List Char) : rtrim (rtrim l) = rtrim l := by
  unfold rtrim
  rw [List.reverse_reverse, dropWhile_dropWhile]

lemma rtrim_head {c : Char} {cs : List Char} (hc : isJsWs c = false) :
    rtrim (c :: cs) = [] ∨ ∃ ds, rtrim (c :: cs) = c :: ds := by
  unfold rtrim
  rw [List.reverse_cons, List.dropWhile_append]
  cases hdw : cs.reverse.dropWhile isJsWs with
  | nil =>
    right
    refine ⟨[], ?_⟩
    rw [if_pos (by simp), List.dropWhile_cons]
    simp [hc]
  | cons d ds =>
    right
    rw [if_neg (by simp)]
    rw [show (d :: ds ++ [c]).reverse = c :: (ds.reverse ++ [d]) by simp]
    exact ⟨_, rfl⟩

lemma ltrim_rtrim_ltrim (l : List Char) : ltrim (rtrim (ltrim l)) = rtrim (ltrim l) := by
  cases hm : ltrim l with
  | nil => rfl
  | cons c cs =>
    have hc : isJsWs c = false := dropWhile_head_false hm
    rcases @rtrim_head c cs hc with h | ⟨ds, h⟩
    · rw [h]; rfl
    · rw [h]
      unfold ltrim
      rw [List.dropWhile_cons, if_neg (by rw [hc]; simp)]

lemma jsTrim_data (s : String) : (jsTrim s).data = rtrim (ltrim s.data) := rfl

lemma jsTrim_idem (s : String) : jsTrim (jsTrim s) = jsTrim s := by
  unfold jsTrim
  have h : rtrim (ltrim (rtrim (ltrim s.data))) = rtrim (ltrim s.data) := by
    rw [ltrim_rtrim_ltrim, rtrim_idem]
  exact congrArg String.mk h

lemma ltrim_eq_self {l : List Char} (h : ∀ c ∈ l, isJsWs c = false) : ltrim l = l := by
  cases l with
  | nil => rfl
  | cons c cs =>
    unfold ltrim
    rw [List.dropWhile_cons,
      if_neg (by rw [h c (List.mem_cons_self c cs)]; simp)]

lemma rtrim_eq_self {l : List Char} (h : ∀ c ∈ l, isJsWs c = false) : rtrim l = l := by
  unfold rtrim
  have : l.reverse.dropWhile isJsWs = l.reverse :=
    ltrim_eq_self fun c hc => h c (List.mem_reverse.mp hc)
  rw [this, List.reverse_reverse]

lemma string_mk_data (s : String) : String.mk s.data = s := by
  cases s
  rfl

lemma jsTrim_eq_self {s : String} (h : ∀ c ∈ s.data, isJsWs c = false) : jsTrim s = s := by
  unfold jsTrim
  rw [ltrim_eq_self h, rtrim_eq_self h, string_mk_data]

lemma string_ne_empty_of_data {s : String} {c : Char} {cs : List Char}
    (h : s.data = c :: cs) : s ≠ "" := by
  intro he
  rw [he] at h
  cases h

/-! ## C10 — character and offset-suffix lemmas -/

lemma isJsWs_false_of_isDigit {c : Char} (h : c.isDigit = true) : isJsWs c = false := by
  have h1 : c ≠ ' ' := by rintro rfl; exact absurd h (by decide)
  have h2 : c ≠ '\t' := by rintro rfl; exact absurd h (by decide)
  have h3 : c ≠ '\n' := by rintro rfl; exact absurd h (by decide)
  have h4 : c ≠ '\r' := by rintro rfl; exact absurd h (by decide)
  have h5 : c ≠ '\x0b' := by rintro rfl; exact absurd h (by decide)
  have h6 : c ≠ '\x0c' := by rintro rfl; exact absurd h (by decide)
  simp [isJsWs, h1, h2, h3, h4, h5, h6]

lemma not_z_of_isDigit {c : Char} (h : c.isDigit = true) : (c = 'z' || c = 'Z') = false := by
  have h1 : c ≠ 'z' := by rintro rfl; exact absurd h (by decide)
  have h2 : c ≠ 'Z' := by rintro rfl; exact absurd h (by decide)
  simp [h1, h2]

lemma padNumber_two_digit :
    ∀ n < 100, padNumber n = String.mk [Nat.digitChar (n / 10), Nat.digitChar (n % 10)] := by
  decide

lemma digitChar_isDigit : ∀ d < 10, (Nat.digitChar d).isDigit = true := by
  decide

/-- Under a sane offset bound (below 100 hours), the offset suffix is a sign
followed by two digit pairs separated by a colon. -/
lemma buildOffsetSuffix_data (m : Int) (hm : m.natAbs < 6000) :
    ∃ sgn a1 a2 b1 b2 : Char,
      (buildOffsetSuffix m).data = [sgn, a1, a2, ':', b1, b2] ∧
        (sgn = '+' ∨ sgn = '-') ∧ a1.isDigit = true ∧ a2.isDigit = true ∧
        b1.isDigit = true ∧ b2.isDigit = true := by
  have hdiv : m.natAbs / 60 < 100 := by omega
  have hmod : m.natAbs % 60 < 100 := by omega
  have hpa := padNumber_two_digit (m.natAbs / 60) hdiv
  have hpb := padNumber_two_digit (m.natAbs % 60) hmod
  unfold buildOffsetSuffix
  by_cases hsgn : (0 : Int) ≤ m
  · refine ⟨'+', Nat.digitChar (m.natAbs / 60 / 10), Nat.digitChar (m.natAbs / 60 % 10),
      Nat.digitChar (m.natAbs % 60 / 10), Nat.digitChar (m.natAbs % 60 % 10), ?_, Or.inl rfl,
      digitChar_isDigit _ (by omega), digitChar_isDigit _ (by omega),
      digitChar_isDigit _ (by omega), digitChar_isDigit _ (by omega)⟩
    simp only [buildOffsetSuffix, if_pos hsgn, hpa, hpb, String.data_append]
    rfl
  · refine ⟨'-', Nat.digitChar (m.natAbs / 60 / 10), Nat.digitChar (m.natAbs / 60 % 10),
      Nat.digitChar (m.natAbs % 60 / 10), Nat.digitChar (m.natAbs % 60 % 10), ?_, Or.inr rfl,
      digitChar_isDigit _ (by omega), digitChar_isDigit _ (by omega),
      digitChar_isDigit _ (by omega), digitChar_isDigit _ (by omega)⟩
    simp only [buildOffsetSuffix, if_neg hsgn, hpa, hpb, String.data_append]
    rfl

lemma hasExplicitTimezone_of_data {s : String} {pre : List Char} {sgn a1 a2 b1 b2 : Char}
    (hdata : s.data = pre ++ [sgn, a1, a2, ':', b1, b2])
    (hs : sgn = '+' ∨ sgn = '-') (ha1 : a1.isDigit = true) (ha2 : a2.isDigit = true)
    (hb1 : b1.isDigit = true) (hb2 : b2.isDigit = true) :
    hasExplicitTimezone s = true := by
  unfold hasExplicitTimezone
  rw [hdata, List.reverse_append]
  rw [show ([sgn, a1, a2, ':', b1, b2] : List Char).reverse = [b2, b1, ':', a2, a1, sgn] from rfl]
  rw [show ([b2, b1, ':', a2, a1, sgn] : List Char) ++ pre.reverse =
    b2 :: b1 :: ':' :: a2 :: a1 :: sgn :: pre.reverse from rfl]
  simp only [endsWithZ, offsetPattern]
  rw [not_z_of_isDigit hb2]
  rcases hs with rfl | rfl <;> simp [ha1, ha2, hb1, hb2]

/-! ## C10 — matcher digit facts -/

/-- All fourteen captured characters are decimal digits. -/
def dpAllDigits (p : DateParts) : Bool :=
  p.y1.isDigit && p.y2.isDigit && p.y3.isDigit && p.y4.isDigit &&
    p.mo1.isDigit && p.mo2.isDigit && p.d1.isDigit && p.d2.isDigit &&
    p.h1.isDigit && p.h2.isDigit && p.mi1.isDigit && p.mi2.isDigit &&
    p.s1.isDigit && p.s2.isDigit

lemma matchDateTime_digits {cs : List Char} {p : DateParts}
    (h : matchDateTime cs = some p) : dpAllDigits p = true := by
  have h0 : ('0' : Char).isDigit = true := by decide
  unfold matchDateTime at h
  split at h
  · split at h
    · rename_i hg
      simp only [Bool.and_eq_true] at hg
      split at h
      · obtain rfl := Option.some.inj h
        simp [dpAllDigits, Bool.and_eq_true, h0]
        tauto
      · split at h
        · rename_i hmi
          simp only [Bool.and_eq_true] at hmi
          split at h
          · obtain rfl := Option.some.inj h
            simp [dpAllDigits, Bool.and_eq_true, h0]
            tauto
          · split at h
            · rename_i hsec
              simp only [Bool.and_eq_true] at hsec
              obtain rfl := Option.some.inj h
              simp [dpAllDigits, Bool.and_eq_true]
              tauto
            · exact Option.noConfusion h
          · exact Option.noConfusion h
        · exact Option.noConfusion h
      · exact Option.noConfusion h
    · exact Option.noConfusion h
  · exact Option.noConfusion h

/-! ## C10 — unfolding `normalizeToMelbourneIso` -/

/-- The string rebuilt from the captured groups with the offset suffix. -/
def buildFromParts (off : OffsetFn) (p : DateParts) : String :=
  String.mk [p.y1, p.y2, p.y3, p.y4, '-', p.mo1, p.mo2, '-', p.d1, p.d2,
      'T', p.h1, p.h2, ':', p.mi1, p.mi2, ':', p.s1, p.s2] ++
    buildOffsetSuffix
      (off (digitsToNat [p.y1, p.y2, p.y3, p.y4]) (digitsToNat [p.mo1, p.mo2])
        (digitsToNat [p.d1, p.d2]) (digitsToNat [p.h1, p.h2])
        (digitsToNat [p.mi1, p.mi2]) (digitsToNat [p.s1, p.s2]))

lemma normalize_some_unfold (off : OffsetFn) (s : String) :
    normalizeToMelbourneIso off (some s) =
      if s = "" then none
      else if jsTrim s = "" then none
      else if hasExplicitTimezone (jsTrim s) then some (jsTrim s)
      else
        match matchDateTime (replaceFirstSpace (jsTrim s).data) with
        | none => some (jsTrim s)
        | some p => some (buildFromParts off p) := rfl

lemma string_ne_empty_of_data_ne {s : String} (h : s.data ≠ []) : s ≠ "" := by
  intro he
  rw [he] at h
  exact h rfl

lemma normalize_fixed_of_tz {off : OffsetFn} {s : String} (h0 : s ≠ "")
    (h1 : jsTrim s = s) (h2 : hasExplicitTimezone s = true) :
    normalizeToMelbourneIso off (some s) = some s := by
  rw [normalize_some_unfold, h1, if_neg h0, if_neg h0, if_pos h2]

lemma normalize_fixed_of_nomatch {off : OffsetFn} {s : String} (h0 : s ≠ "")
    (h1 : jsTrim s = s) (h2 : hasExplicitTimezone s = false)
    (h3 : matchDateTime (replaceFirstSpace s.data) = none) :
    normalizeToMelbourneIso off (some s) = some s := by
  rw [normalize_some_unfold, h1, if_neg h0, if_neg h0,
    if_neg (by rw [h2]; exact Bool.false_ne_true)]
  simp only [h3]

lemma dpAllDigits_extract {p : DateParts} (h : dpAllDigits p = true) :
    p.y1.isDigit = true ∧ p.y2.isDigit = true ∧ p.y3.isDigit = true ∧ p.y4.isDigit = true ∧
      p.mo1.isDigit = true ∧ p.mo2.isDigit = true ∧ p.d1.isDigit = true ∧ p.d2.isDigit = true ∧
      p.h1.isDigit = true ∧ p.h2.isDigit = true ∧ p.mi1.isDigit = true ∧ p.mi2.isDigit = true ∧
      p.s1.isDigit = true ∧ p.s2.isDigit = true := by
  simp only [dpAllDigits, Bool.and_eq_true] at h
  tauto

/-- C10: `normalizeToMelbourneIso` is idempotent (under the sane bound that
the timezone oracle answers offsets below 100 hours, as `Australia/Melbourne`
always does): applying it twice equals applying it once; any trimmed input
carrying an explicit timezone is returned unchanged after trimming; and
empty or whitespace-only input yields `undefined`. -/
theorem c10_normalize_idempotent (off : OffsetFn)
    (hoff : ∀ y mo d h mi s, (off y mo d h mi s).natAbs < 6000) :
    (∀ ds : Option String,
      normalizeToMelbourneIso off (normalizeToMelbourneIso off ds) =
        normalizeToMelbourneIso off ds) ∧
    (∀ s : String, jsTrim s = "" → normalizeToMelbourneIso off (some s) = none) ∧
    (∀ s : String, s ≠ "" → jsTrim s ≠ "" → hasExplicitTimezone (jsTrim s) = true →
      normalizeToMelbourneIso off (some s) = some (jsTrim s)) := by
  have hwsonly : ∀ s : String, jsTrim s = "" → normalizeToMelbourneIso off (some s) = none := by
    intro s ht0
    rw [normalize_some_unfold]
    by_cases hs0 : s = ""
    · rw [if_pos hs0]
    · rw [if_neg hs0, if_pos ht0]
  have htzcase : ∀ s : String, s ≠ "" → jsTrim s ≠ "" →
      hasExplicitTimezone (jsTrim s) = true →
      normalizeToMelbourneIso off (some s) = some (jsTrim s) := by
    intro s hs0 ht0 htz
    rw [normalize_some_unfold, if_neg hs0, if_neg ht0, if_pos htz]
  refine ⟨?_, hwsonly, htzcase⟩
  intro ds
  cases ds with
  | none => rfl
  | some s =>
    by_cases hs0 : s = ""
    · subst hs0
      rw [show normalizeToMelbourneIso off (some "") = none from rfl]
      rfl
    · by_cases ht0 : jsTrim s = ""
      · rw [hwsonly s ht0]
        rfl
      · by_cases htz : hasExplicitTimezone (jsTrim s) = true
        · rw [htzcase s hs0 ht0 htz]
          exact normalize_fixed_of_tz ht0 (jsTrim_idem s) htz
        · have htzf : hasExplicitTimezone (jsTrim s) = false := Bool.eq_false_iff.mpr htz
          cases hm : matchDateTime (replaceFirstSpace (jsTrim s).data) with
          | none =>
            have h1 : normalizeToMelbourneIso off (some s) = some (jsTrim s) := by
              rw [normalize_some_unfold, if_neg hs0, if_neg ht0,
                if_neg (by rw [htzf]; exact Bool.false_ne_true)]
              simp only [hm]
            rw [h1]
            exact normalize_fixed_of_nomatch ht0 (jsTrim_idem s) htzf hm
          | some p =>
            have h1 : normalizeToMelbourneIso off (some s) = some (buildFromParts off p) := by
              rw [normalize_some_unfold, if_neg hs0, if_neg ht0,
                if_neg (by rw [htzf]; exact Bool.false_ne_true)]
              simp only [hm]
            obtain ⟨hy1, hy2, hy3, hy4, hmo1, hmo2, hd1, hd2, hh1, hh2, hmi1, hmi2, hs1, hs2⟩ :=
              dpAllDigits_extract (matchDateTime_digits hm)
            obtain ⟨sgn, a1, a2, b1, b2, hsufd, hsgn, ha1, ha2, hb1, hb2⟩ :=
              buildOffsetSuffix_data
                (off (digitsToNat [p.y1, p.y2, p.y3, p.y4]) (digitsToNat [p.mo1, p.mo2])
                  (digitsToNat [p.d1, p.d2]) (digitsToNat [p.h1, p.h2])
                  (digitsToNat [p.mi1, p.mi2]) (digitsToNat [p.s1, p.s2]))
                (hoff _ _ _ _ _ _)
            have hdata : (buildFromParts off p).data =
                [p.y1, p.y2, p.y3, p.y4, '-', p.mo1, p.mo2, '-', p.d1, p.d2,
                  'T', p.h1, p.h2, ':', p.mi1, p.mi2, ':', p.s1, p.s2] ++
                  [sgn, a1, a2, ':', b1, b2] := by
              unfold buildFromParts
              rw [String.data_append, hsufd]
            have hne : buildFromParts off p ≠ "" :=
              string_ne_empty_of_data_ne (by rw [hdata]; simp)
            have hws : ∀ c ∈ (buildFromParts off p).data, isJsWs c = false := by
              intro c hc
              rw [hdata] at hc
              rcases List.mem_append.mp hc with h19 | h6
              · simp only [List.mem_cons, List.not_mem_nil, or_false] at h19
                rcases h19 with rfl | rfl | rfl | rfl | rfl | rfl | rfl | rfl | rfl | rfl |
                  rfl | rfl | rfl | rfl | rfl | rfl | rfl | rfl | rfl <;>
                  first
                  | decide
                  | (apply isJsWs_false_of_isDigit; assumption)
              · simp only [List.mem_cons, List.not_mem_nil, or_false] at h6
                rcases h6 with rfl | rfl | rfl | rfl | rfl | rfl
                · rcases hsgn with rfl | rfl <;> decide
                all_goals
                  first
                  | decide
                  | (apply isJsWs_false_of_isDigit; assumption)
            have hfix : jsTrim (buildFromParts off p) = buildFromParts off p :=
              jsTrim_eq_self hws
            have htzout : hasExplicitTimezone (buildFromParts off p) = true :=
              hasExplicitTimezone_of_data hdata hsgn ha1 ha2 hb1 hb2
            rw [h1]
            exact normalize_fixed_of_tz hne hfix htzout

/-- C10 witness: `c10_normalize_idempotent` at the constant Melbourne offset
and an offset-less input — a second application leaves the rebuilt string
unchanged. -/
lemma offFix_bound : ∀ y mo d h mi s, (offFix y mo d h mi s).natAbs < 6000 := by
  intro y mo d h mi s
  show ((600 : Int)).natAbs < 6000
  decide

theorem c10_normalize_idempotent_witness :
    normalizeToMelbourneIso offFix (normalizeToMelbourneIso offFix (some "2025-01-01 10:30")) =
      normalizeToMelbourneIso offFix (some "2025-01-01 10:30") :=
  (c10_normalize_idempotent offFix offFix_bound).1 (some "2025-01-01 10:30")
